import Mathlib

/-!
Verification of the core of the inferable-node SDK.

The development shallowly embeds the parts of the SDK that the specification
talks about:

* the payload codec of src/src/packer.ts together with a model of the
  platform JSON serializer and parser it delegates to;
* the client facade of src/src/Inferable.ts (constructor, function
  registration, service start and stop bookkeeping);
* the polling agent (machine registration, the credential-expiry restart
  check, and message processing) of the polling-agent source file;
* a small interleaving semantics for the concurrent execution of the
  consumer lifecycle callbacks, used to analyse the restart path.

JavaScript numbers inside JSON documents are modelled as exact decimals
(an integer mantissa scaled by a power of ten); machine integers and
timestamps are Int (milliseconds); fallible operations return Except or
Option values.
-/

/-! ## JSON data model

Models the JSON-representable JavaScript values handled by packer.ts:
objects, arrays, strings, numbers, booleans and null.  An object is a
finite ordered list of key/value pairs, as produced in order by the
platform parser.  A number is an exact decimal `mantissa / 10 ^ exponent`.
-/

/-- Exact decimal number: the value `mantissa / 10 ^ exponent`.  This models
the decimal literals that the platform JSON serializer prints and the parser
reads back; it avoids binary floating point entirely. -/
structure JsonNumber where
  mantissa : Int
  exponent : Nat
deriving DecidableEq, Repr

/-- JSON-representable values: nested objects, arrays, strings, numbers,
booleans, and null. -/
inductive Json where
  | null
  | bool (b : Bool)
  | num (n : JsonNumber)
  | str (s : String)
  | arr (elems : List Json)
  | obj (fields : List (String × Json))
deriving Repr

namespace Packer

/-! ### Serialization (model of JSON.stringify, as used by packer.pack) -/

/-- The character for a decimal digit value below ten. -/
def digitChar (d : Nat) : Char := Char.ofNat (48 + d)

/-- Little-endian decimal digits of a natural number, with explicit fuel so
that the definition is structurally recursive and computes by reduction.
With enough fuel this agrees with Nat.digits 10 (proved below). -/
def natDigitsFuel : Nat → Nat → List Nat
  | 0, _ => []
  | _ + 1, 0 => []
  | fuel + 1, n + 1 => ((n + 1) % 10) :: natDigitsFuel fuel ((n + 1) / 10)

/-- Little-endian decimal digits of a natural number (empty for zero). -/
def natDigitsLE (n : Nat) : List Nat := natDigitsFuel n n

/-- Decimal digit characters of a natural number, most significant first. -/
def natChars (n : Nat) : List Char :=
  if n = 0 then [digitChar 0] else ((natDigitsLE n).reverse).map digitChar

/-- Decimal rendering of a JsonNumber, exactly as the platform serializer
prints a finite number: optional minus sign, integer digits, and — when the
exponent is positive — a decimal point followed by exactly `exponent`
fraction digits (zero padded on the left). -/
def numChars (x : JsonNumber) : List Char :=
  let a := x.mantissa.natAbs
  let sign : List Char := if x.mantissa < 0 then [Char.ofNat 45] else []
  if x.exponent = 0 then sign ++ natChars a
  else
    let ip := a / 10 ^ x.exponent
    let fp := a % 10 ^ x.exponent
    let fds := ((natDigitsLE fp).reverse).map digitChar
    sign ++ natChars ip ++ (Char.ofNat 46 :: (List.replicate (x.exponent - fds.length) (digitChar 0) ++ fds))

/-- Escaping of one character inside a JSON string literal, following the
platform serializer: quote and backslash are escaped, the five named control
escapes are used where they exist, all other control characters become a
four-digit hexadecimal unicode escape, and every other character is emitted
verbatim. -/
def escapeChar (c : Char) : List Char :=
  if c = '"' then ['\\', '"']
  else if c = '\\' then ['\\', '\\']
  else if c.toNat = 8 then ['\\', 'b']
  else if c.toNat = 9 then ['\\', 't']
  else if c.toNat = 10 then ['\\', 'n']
  else if c.toNat = 12 then ['\\', 'f']
  else if c.toNat = 13 then ['\\', 'r']
  else if c.toNat < 32 then
    ['\\', 'u', digitChar 0, digitChar 0,
     (if c.toNat / 16 < 10 then digitChar (c.toNat / 16) else Char.ofNat (87 + c.toNat / 16)),
     (if c.toNat % 16 < 10 then digitChar (c.toNat % 16) else Char.ofNat (87 + c.toNat % 16))]
  else [c]

/-- Escape every character of a string body in order. -/
def escChars : List Char → List Char
  | [] => []
  | c :: cs => escapeChar c ++ escChars cs

/-- A JSON string literal: opening quote, escaped body, closing quote. -/
def strChars (s : String) : List Char := '"' :: (escChars s.data ++ ['"'])

mutual

/-- Compact serialization of a JSON value, as the platform serializer emits
it (no whitespace, fields and elements in order). -/
def stringifyV : Json → List Char
  | .null => 'n' :: 'u' :: 'l' :: 'l' :: []
  | .bool true => 't' :: 'r' :: 'u' :: 'e' :: []
  | .bool false => 'f' :: 'a' :: 'l' :: 's' :: 'e' :: []
  | .num x => numChars x
  | .str s => strChars s
  | .arr [] => ['[', ']']
  | .arr (x :: xs) => '[' :: ((stringifyV x ++ stringifyElems xs) ++ [']'])
  | .obj [] => ['{', '}']
  | .obj (f :: fs) =>
    '{' :: ((strChars f.1 ++ (':' :: stringifyV f.2) ++ stringifyFields fs) ++ ['}'])

/-- Serialization of the remaining elements of a non-empty array, each
preceded by a comma. -/
def stringifyElems : List Json → List Char
  | [] => []
  | x :: xs => ',' :: (stringifyV x ++ stringifyElems xs)

/-- Serialization of the remaining fields of a non-empty object, each
preceded by a comma. -/
def stringifyFields : List (String × Json) → List Char
  | [] => []
  | f :: fs => ',' :: (strChars f.1 ++ (':' :: stringifyV f.2) ++ stringifyFields fs)

end

/-! ### Parsing (model of JSON.parse, as used by packer.unpack) -/

/-- JSON insignificant whitespace: space, tab, line feed, carriage return. -/
def isJsonWs (c : Char) : Bool :=
  c = ' ' || c.toNat = 9 || c.toNat = 10 || c.toNat = 13

/-- Skip insignificant whitespace. -/
def skipWs : List Char → List Char
  | [] => []
  | c :: r => if isJsonWs c then skipWs r else c :: r

/-- Decimal digit test on a character. -/
def isDigitCh (c : Char) : Bool := 48 ≤ c.toNat && c.toNat ≤ 57

/-- Longest prefix of decimal digits, as digit values, plus the remainder. -/
def takeDigits : List Char → List Nat × List Char
  | [] => ([], [])
  | c :: r =>
    if isDigitCh c then
      let p := takeDigits r
      ((c.toNat - 48) :: p.1, p.2)
    else ([], c :: r)

/-- Whether a remainder begins safely for a number literal: the parser will
not read past the literal into it (it does not start with a digit or a
decimal point).  Everything a serialized document can put after a number —
a comma, a closing bracket or brace, whitespace, or the end — satisfies
this. -/
def numBoundary : List Char → Bool
  | [] => true
  | c :: _ => !(isDigitCh c) && !(c = '.')

/-- Value of a most-significant-first list of decimal digits. -/
def digitsVal (ds : List Nat) : Nat := ds.foldl (fun a d => 10 * a + d) 0

/-- Attach a sign to a natural number. -/
def intOfSign (neg : Bool) (n : Nat) : Int := if neg then -(n : Int) else (n : Int)

/-- Parse a JSON number literal: optional minus sign, integer digits, and an
optional fraction part.  Returns the exact decimal read and the remainder of
the input. -/
def parseNum (s : List Char) : Option (JsonNumber × List Char) :=
  let p := match s with
    | '-' :: r => (true, r)
    | _ => (false, s)
  match takeDigits p.2 with
  | ([], _) => none
  | (ds, r) =>
    match r with
    | '.' :: r2 =>
      (match takeDigits r2 with
       | ([], _) => none
       | (fs, r3) =>
         some (⟨intOfSign p.1 (digitsVal ds * 10 ^ fs.length + digitsVal fs), fs.length⟩, r3))
    | _ => some (⟨intOfSign p.1 (digitsVal ds), 0⟩, r)

/-- Value of a hexadecimal digit character, upper or lower case. -/
def parseHexDigit (c : Char) : Option Nat :=
  if 48 ≤ c.toNat && c.toNat ≤ 57 then some (c.toNat - 48)
  else if 97 ≤ c.toNat && c.toNat ≤ 102 then some (c.toNat - 87)
  else if 65 ≤ c.toNat && c.toNat ≤ 70 then some (c.toNat - 55)
  else none

/-- Meaning of a single-character string escape. -/
def unescape (e : Char) : Option Char :=
  if e = '"' then some '"'
  else if e = '\\' then some '\\'
  else if e = '/' then some '/'
  else if e = 'b' then some (Char.ofNat 8)
  else if e = 'f' then some (Char.ofNat 12)
  else if e = 'n' then some (Char.ofNat 10)
  else if e = 'r' then some (Char.ofNat 13)
  else if e = 't' then some (Char.ofNat 9)
  else none

/-- Parse the body of a string literal after its opening quote: characters
and escapes up to the closing quote.  Unescaped control characters are
rejected, as the JSON grammar requires. -/
def parseStrBody : List Char → Option (List Char × List Char)
  | [] => none
  | '"' :: rest => some ([], rest)
  | '\\' :: 'u' :: h1 :: h2 :: h3 :: h4 :: rest3 =>
    (match parseHexDigit h1, parseHexDigit h2, parseHexDigit h3, parseHexDigit h4 with
     | some a, some b, some g, some d =>
       (parseStrBody rest3).map
         (fun p => (Char.ofNat (((a * 16 + b) * 16 + g) * 16 + d) :: p.1, p.2))
     | _, _, _, _ => none)
  | '\\' :: e :: rest2 =>
    (match unescape e with
     | some d => (parseStrBody rest2).map (fun p => (d :: p.1, p.2))
     | none => none)
  | c :: rest =>
    if c.toNat < 32 then none
    else (parseStrBody rest).map (fun p => (c :: p.1, p.2))

mutual

/-- Recursive-descent JSON value parser.  The fuel argument only bounds the
nesting the parser will enter; the top level entry point supplies more fuel
than any document of the given length can need. -/
def parseValue : Nat → List Char → Option (Json × List Char)
  | 0, _ => none
  | fuel + 1, s =>
    match skipWs s with
    | [] => none
    | c :: r =>
      if c = 'n' then
        match r with
        | 'u' :: 'l' :: 'l' :: r2 => some (.null, r2)
        | _ => none
      else if c = 't' then
        match r with
        | 'r' :: 'u' :: 'e' :: r2 => some (.bool true, r2)
        | _ => none
      else if c = 'f' then
        match r with
        | 'a' :: 'l' :: 's' :: 'e' :: r2 => some (.bool false, r2)
        | _ => none
      else if c = '"' then
        (parseStrBody r).map (fun p => (.str (String.mk p.1), p.2))
      else if c = '[' then
        match skipWs r with
        | ']' :: r2 => some (.arr [], r2)
        | s2 => (parseElems fuel s2).map (fun p => (.arr p.1, p.2))
      else if c = '{' then
        match skipWs r with
        | '}' :: r2 => some (.obj [], r2)
        | s2 => (parseFields fuel s2).map (fun p => (.obj p.1, p.2))
      else
        (parseNum (c :: r)).map (fun p => (.num p.1, p.2))

/-- Parse the elements of a non-empty array up to and including the closing
bracket. -/
def parseElems : Nat → List Char → Option (List Json × List Char)
  | 0, _ => none
  | fuel + 1, s =>
    match parseValue fuel s with
    | none => none
    | some (v, r) =>
      match skipWs r with
      | ',' :: r2 => (parseElems fuel r2).map (fun p => (v :: p.1, p.2))
      | ']' :: r2 => some ([v], r2)
      | _ => none

/-- Parse the fields of a non-empty object up to and including the closing
brace. -/
def parseFields : Nat → List Char → Option (List (String × Json) × List Char)
  | 0, _ => none
  | fuel + 1, s =>
    match skipWs s with
    | '"' :: r =>
      (match parseStrBody r with
       | none => none
       | some (k, r2) =>
         match skipWs r2 with
         | ':' :: r3 =>
           (match parseValue fuel r3 with
            | none => none
            | some (v, r4) =>
              match skipWs r4 with
              | ',' :: r5 => (parseFields fuel r5).map (fun p => ((String.mk k, v) :: p.1, p.2))
              | '}' :: r5 => some ([(String.mk k, v)], r5)
              | _ => none)
         | _ => none)
    | _ => none

end

/-- Parse a complete JSON document: one value, with nothing but whitespace
after it.  Unparsable input yields none (the platform parser throws). -/
def parseDoc (s : String) : Option Json :=
  match parseValue (s.length + 1) s.data with
  | some p => if skipWs p.2 = [] then some p.1 else none
  | none => none

/-- Property lookup on a parsed object: when a key is repeated, the later
occurrence wins, as it does for the platform parser. -/
def lookupLast (fields : List (String × Json)) (k : String) : Option Json :=
  match fields with
  | [] => none
  | f :: fs =>
    match lookupLast fs k with
    | some v => some v
    | none => if f.1 = k then some f.2 else none

/-! ### The packer (src/src/packer.ts) -/

/-- Embedding of packer.pack: wrap the value in an envelope object with one
field named value, and serialize it. -/
def pack (v : Json) : String :=
  String.mk (stringifyV (Json.obj [(("value" : String), v)]))

/-- Embedding of packer.unpack: parse, then read the value property of the
envelope.  A parse failure, a document that is not an object (no such
property, or a property access that throws on null), or an envelope without
the field all yield none. -/
def unpack (s : String) : Option Json :=
  match parseDoc s with
  | some (Json.obj fields) => lookupLast fields ("value")
  | some _ => none
  | none => none

/-! ### Structural size used to budget parser fuel -/

mutual

/-- Node-count measure of a JSON value. -/
def sizeV : Json → Nat
  | .bool b => 1
  | .num q => 1
  | .str t => 1
  | .null => 1
  | .arr l => 1 + sizeL l
  | .obj l => 1 + sizeF l

/-- Measure of a list of array elements. -/
def sizeL : List Json → Nat
  | [] => 0
  | x :: xs => 1 + sizeV x + sizeL xs

/-- Measure of a list of object fields. -/
def sizeF : List (String × Json) → Nat
  | [] => 0
  | f :: fs => 1 + sizeV f.2 + sizeF fs

end

end Packer

/-! ## The client facade (src/src/Inferable.ts)

State and operations of the Inferable class: construction-time validation of
the API secret, function registration into the per-instance registry, and
the start and stop bookkeeping that the service closures perform on the
per-instance service list.
-/

namespace Client

/-- JavaScript truthiness of an optional string: undefined and the empty
string are falsy. -/
def jsTruthy : Option String → Bool
  | none => false
  | some s => s ≠ ""

/-- The JavaScript or-else operator on optional strings. -/
def jsOr (a b : Option String) : Option String := if jsTruthy a then a else b

/-- The JavaScript or-else operator against a default string literal. -/
def jsOrDefault (a : Option String) (d : String) : String :=
  match a with
  | some s => if s = "" then d else s
  | none => d

/-- Constructor options of the Inferable class. -/
structure ConstructorOpts where
  apiSecret : Option String := none
  endpoint : Option String := none
  clusterId : Option String := none
deriving DecidableEq, Repr

/-- The environment variables the constructor reads. -/
structure EnvVars where
  inferableApiSecret : Option String := none
  inferableClusterId : Option String := none
  inferableApiEndpoint : Option String := none
deriving DecidableEq, Repr

/-- The distinguishable InferableError values thrown by the client facade,
each constructor naming one throw site, with the metadata it attaches. -/
inductive ClientError where
  | noApiSecret
  | invalidApiSecret
  | duplicateFunctionName (name : String)
  | invalidFunctionName (name : String)
  | invalidDescription
  | invalidSchema (failures : List String)
  | registerAfterStart (serviceName : String)
  | notAFunction
  | serviceAlreadyStarted (serviceName : String)
  | serviceNotStarted (serviceName : String)
deriving DecidableEq, Repr

/-- A JavaScript value supplied as a handler: an identity tag plus whether
the typeof test calls it a function. -/
structure FuncVal where
  tag : Nat
  callable : Bool := true
deriving DecidableEq, Repr

/-- Modelled from the spec: the FunctionRegistration record of types.ts
(that file is not under src/); fields follow section 3 of the spec and the
construction site in Inferable.registerFunction — name, owning service,
handler, the supplied input schema together with its canonical JSON-Schema
string, optional authenticator, optional config, optional description. -/
structure FunctionRegistration where
  name : String
  serviceName : String
  func : FuncVal
  schemaInput : Nat
  schemaInputJson : String
  authenticate : Option Nat := none
  config : Option Nat := none
  description : Option String := none
deriving DecidableEq, Repr

/-- Modelled from the spec: the validation helpers of util.ts (that file is
not under src/).  Registration only consults their verdicts: whether a
function name and description are acceptable, the list of failures of the
JSON-Schema meta-validation, and the normalisation of a supplied schema
value to its canonical JSON-Schema string (zod-to-json-schema followed by
JSON.stringify for zod inputs, JSON.stringify alone otherwise). -/
structure UtilModel where
  validFunctionName : String → Bool
  validDescription : Option String → Bool
  schemaFailures : String → List String
  toJsonSchema : Nat → String

/-- The state of one Inferable instance: the validated secret and endpoint,
the machine identity, the list of services for which start succeeded, and
the function registry. -/
structure ClientState where
  clusterId : Option String
  apiSecret : String
  endpoint : String
  machineId : String
  services : List String
  functionRegistry : List (String × FunctionRegistration)

/-- Embedding of the Inferable constructor: resolve the cluster id, the
API secret and the endpoint from options and environment, throw when no
secret is available, throw when the secret does not begin with the
sk_cluster_ magic, and otherwise build the initial state.  No network
activity occurs here: createApiClient only assembles a client value. -/
def construct (opts : ConstructorOpts) (env : EnvVars) (machineIdStr : String) :
    Except ClientError ClientState :=
  let clusterId := jsOr opts.clusterId env.inferableClusterId
  match jsOr opts.apiSecret env.inferableApiSecret with
  | none => .error .noApiSecret
  | some s =>
    if s = "" then .error .noApiSecret
    else if ¬ s.startsWith ("sk_cluster_") then .error .invalidApiSecret
    else
      .ok { clusterId := clusterId
            apiSecret := s
            endpoint := jsOrDefault (jsOr opts.endpoint env.inferableApiEndpoint)
              ("https://api.inferable.ai")
            machineId := machineIdStr
            services := []
            functionRegistry := [] }

/-- The arguments of one registerFunction call. -/
structure RegisterInput where
  name : String
  serviceName : String
  func : FuncVal
  inputSchema : Nat
  config : Option Nat := none
  description : Option String := none
  authenticate : Option Nat := none
deriving DecidableEq, Repr

/-- Embedding of Inferable.registerFunction: reject a name that is already
present in the registry (whichever service owns it) before anything else,
then validate the name, the description and the canonical schema, reject
registration for a service that has already started and handlers that are
not functions, and finally record the registration under its name. -/
def registerFunction (u : UtilModel) (st : ClientState) (inp : RegisterInput) :
    Except ClientError ClientState :=
  if (st.functionRegistry.lookup inp.name).isSome then
    .error (.duplicateFunctionName inp.name)
  else
    let inputJson := u.toJsonSchema inp.inputSchema
    if ¬ u.validFunctionName inp.name then .error (.invalidFunctionName inp.name)
    else if ¬ u.validDescription inp.description then .error .invalidDescription
    else if u.schemaFailures inputJson ≠ [] then
      .error (.invalidSchema (u.schemaFailures inputJson))
    else
      let registration : FunctionRegistration :=
        { name := inp.name
          serviceName := inp.serviceName
          func := inp.func
          schemaInput := inp.inputSchema
          schemaInputJson := inputJson
          authenticate := inp.authenticate
          config := inp.config
          description := inp.description }
      if st.services.contains inp.serviceName then
        .error (.registerAfterStart inp.serviceName)
      else if ¬ inp.func.callable then .error .notAFunction
      else .ok { st with functionRegistry := st.functionRegistry ++ [(inp.name, registration)] }

/-- Register a list of function definitions in order, as the forEach in the
start closure does; a throw keeps the registrations made so far and carries
the error out. -/
def registerAll (u : UtilModel) (st : ClientState) :
    List RegisterInput → ClientState × Option ClientError
  | [] => (st, none)
  | f :: fs =>
    match registerFunction u st f with
    | .ok st1 => registerAll u st1 fs
    | .error e => (st, some e)

/-- Embedding of the start closure returned by Inferable.service: register
any functions supplied with the service definition (stamped with this
service name), throw when a service of this name is already on the instance
service list, and otherwise append the new service to the list and start its
polling agent. -/
def serviceStart (u : UtilModel) (st : ClientState) (serviceName : String)
    (fns : List RegisterInput) : ClientState × Option ClientError :=
  let r := registerAll u st (fns.map (fun f => { f with serviceName := serviceName }))
  match r.2 with
  | some e => (r.1, some e)
  | none =>
    if r.1.services.contains serviceName then
      (r.1, some (.serviceAlreadyStarted serviceName))
    else
      ({ r.1 with services := r.1.services ++ [serviceName] }, none)

/-- Embedding of the stop closure returned by Inferable.service: look the
service up on the instance service list, throw when it is absent, and
otherwise stop it.  The list itself is never shrunk. -/
def serviceStop (st : ClientState) (serviceName : String) :
    ClientState × Option ClientError :=
  if st.services.contains serviceName then (st, none)
  else (st, some (.serviceNotStarted serviceName))

end Client

/-! ## The polling agent (polling-agent source file)

Pure embeddings of the agent operations the claims are about: the
credential-expiry restart check run from the consumer lifecycle callbacks,
machine registration, and per-message processing.  Network responses are
supplied as values; each operation returns the list of externally visible
actions it performs, in order, together with its outcome.
-/

namespace Agent

/-- The consumer lifecycle signals the agent subscribes to. -/
inductive Signal where
  | errorSignal
  | emptySignal
  | responseProcessed
  | processingError
  | stoppedSignal
  | messageReceived
  | messageProcessed
  | waitingForPollingComplete
  | waitingTimeoutExceeded
deriving DecidableEq, Repr

/-- Embedding of the guard of checkAndRestartIfNeeded: with no recorded
expiration there is nothing to do; otherwise restart when the credentials
are expired (now strictly past the expiration timestamp) or the expiration
is strictly less than sixty thousand milliseconds away.  Times are
millisecond timestamps. -/
def restartNeeded (credentialsExpiration : Option Int) (now : Int) : Bool :=
  match credentialsExpiration with
  | none => false
  | some exp => decide (now > exp) || decide (exp - now < 60000)

/-- The steps of one restart cycle, in the order checkAndRestartIfNeeded
performs them: stop the current consumer, discard it, call start again. -/
inductive RestartAction where
  | stopConsumer
  | discardConsumer
  | callStart
deriving DecidableEq, Repr

/-- Embedding of checkAndRestartIfNeeded: perform a full restart cycle
exactly when the guard holds, and nothing otherwise. -/
def checkAndRestartIfNeeded (credentialsExpiration : Option Int) (now : Int) :
    List RestartAction :=
  if restartNeeded credentialsExpiration now then
    [.stopConsumer, .discardConsumer, .callStart]
  else []

/-- Embedding of the consumer event wiring in registerMachine: the error,
empty and response_processed callbacks run checkAndRestartIfNeeded; the
remaining callbacks only log or (for stopped) invoke the exit handler, and
never restart. -/
def onSignal (sig : Signal) (credentialsExpiration : Option Int) (now : Int) :
    List RestartAction :=
  match sig with
  | .errorSignal => checkAndRestartIfNeeded credentialsExpiration now
  | .emptySignal => checkAndRestartIfNeeded credentialsExpiration now
  | .responseProcessed => checkAndRestartIfNeeded credentialsExpiration now
  | _ => []

/-- Temporary queue credentials, as returned by the control plane. -/
structure Credentials where
  accessKeyId : String
  secretAccessKey : String
  sessionToken : String
deriving DecidableEq, Repr

/-- The body of a createMachine response. -/
structure RegisterBody where
  queueUrl : String
  region : String
  enabled : Option Bool := none
  expiration : Int
  credentials : Credentials
  clusterId : String
deriving DecidableEq, Repr

/-- A createMachine response: HTTP status plus body. -/
structure CreateMachineResponse where
  status : Nat
  body : RegisterBody
deriving DecidableEq, Repr

/-- The queue consumer value constructed by registerMachine, with the fixed
configuration the source supplies. -/
structure Consumer where
  queueUrl : String
  batchSize : Nat
  pollingCompleteWaitTimeMs : Nat
deriving DecidableEq, Repr

/-- The mutable fields of a PollingAgent instance touched by registration
and restart. -/
structure AgentState where
  serviceName : String
  sqsQueueUrl : Option String := none
  pollingEnabled : Bool := true
  credentialsExpiration : Option Int := none
  sqsRegion : Option String := none
  sqsCredentials : Option Credentials := none
  consumer : Option Consumer := none
deriving DecidableEq, Repr

/-- The distinguishable errors thrown inside the polling agent, each
constructor naming one throw site with the metadata the source attaches. -/
inductive AgentError where
  | registrationFailed (status : Nat) (body : RegisterBody)
  | consumerAlreadyStarted
  | consumerNotRunning
  | emptyMessageBody
  | argsParseThrow
  | argsNullPropertyThrow
  | resultPersistFailed (status : Nat) (jobId : String)
deriving DecidableEq, Repr

/-- The externally visible actions of start and registerMachine. -/
inductive StartEvent where
  | createMachineCall
  | consumerCreated
  | consumerStarted
deriving DecidableEq, Repr

/-- Embedding of registerMachine: one createMachine call; any status other
than 200 throws the registration error carrying the status and body, before
any consumer exists; on success the queue fields and the credential
expiration are recorded, a consumer already present at this point is a defect, and
otherwise the consumer is created (and started when polling is enabled) and
the cluster id of the response body is returned. -/
def registerMachine (st : AgentState) (resp : CreateMachineResponse) :
    List StartEvent × Except AgentError (AgentState × String) :=
  let ev0 : List StartEvent := [.createMachineCall]
  if resp.status ≠ 200 then
    (ev0, .error (.registrationFailed resp.status resp.body))
  else
    let st1 : AgentState :=
      { st with
        sqsQueueUrl := some resp.body.queueUrl
        pollingEnabled := resp.body.enabled.getD true
        credentialsExpiration := some resp.body.expiration
        sqsRegion := some resp.body.region
        sqsCredentials := some resp.body.credentials }
    match st1.consumer with
    | some _ => (ev0, .error .consumerAlreadyStarted)
    | none =>
      let st2 : AgentState :=
        { st1 with
          consumer := some
            { queueUrl := resp.body.queueUrl
              batchSize := 10
              pollingCompleteWaitTimeMs := 20000 } }
      (ev0 ++ [.consumerCreated] ++ (if st2.pollingEnabled then [.consumerStarted] else []),
       .ok (st2, resp.body.clusterId))

/-- Embedding of start: it logs and then delegates to registerMachine. -/
def start (st : AgentState) (resp : CreateMachineResponse) :
    List StartEvent × Except AgentError (AgentState × String) :=
  registerMachine st resp

/-! ### Message processing -/

/-- A job as decoded from a received message body: identifier, target
function name, the still packed argument payload, and the optional auth
context. -/
structure Job where
  id : String
  targetFn : String
  targetArgs : String
  authContext : Option String := none
deriving DecidableEq, Repr

/-- One zod validation issue: a path and a message. -/
structure ZodIssue where
  path : List String
  message : String
deriving DecidableEq, Repr

/-- The JavaScript error values that flow into serialize-error within
processMessage: the not-registered InferableError, the invalid argument
shape error, a zod validation error with its issues, or a generic error. -/
inductive JsError where
  | notRegistered (targetFn : String)
  | invalidFormat
  | zod (issues : List ZodIssue)
  | generic (name message : String)
deriving DecidableEq, Repr

/-- JSON image of one zod issue inside a serialized error. -/
def zodIssueJson (i : ZodIssue) : Json :=
  Json.obj [(("path" : String), Json.arr (i.path.map Json.str)),
            (("message" : String), Json.str i.message)]

/-- Rendering of the message property of a zod error: it contains the
message of every issue, not only the first. -/
def zodMessage (issues : List ZodIssue) : String :=
  String.intercalate ("; ") (issues.map (fun i => i.message))

/-- Modelled from the spec: serialize-error.ts is not under src/.  Section
4.3 of the spec requires serialization to preserve at minimum name and
message and, for structured error types, any additional enumerable fields;
for a zod error the enumerable issues list is therefore carried in full. -/
def serializeError : JsError → Json
  | .notRegistered fn =>
    Json.obj [(("name" : String), Json.str ("InferableError")),
              (("message" : String), Json.str ("Function was not registered. name=" ++ fn))]
  | .invalidFormat =>
    Json.obj [(("name" : String), Json.str ("Error")),
              (("message" : String),
               Json.str ("Function was called with invalid invalid format. Expected an object."))]
  | .zod issues =>
    Json.obj [(("name" : String), Json.str ("ZodError")),
              (("message" : String), Json.str (zodMessage issues)),
              (("issues" : String), Json.arr (issues.map zodIssueJson))]
  | .generic n m =>
    Json.obj [(("name" : String), Json.str n), (("message" : String), Json.str m)]

/-- The messages listed under the issues property of a serialized error
content; empty when the content carries no issues list. -/
def issueMessages (content : Json) : List String :=
  match content with
  | .obj fs =>
    (match Packer.lookupLast fs ("issues") with
     | some (.arr items) =>
       items.filterMap (fun it =>
         match it with
         | .obj gs =>
           (match Packer.lookupLast gs ("message") with
            | some (.str m) => some m
            | _ => none)
         | _ => none)
     | _ => [])
  | _ => []

/-- The two job outcomes. -/
inductive ResultType where
  | resolution
  | rejection
deriving DecidableEq, Repr

/-- Modelled from the spec: the Result envelope of execute-fn.ts (that file
is not under src/), following section 3 of the spec: an outcome kind, a
content value (the returned value, or a serialized error), and the
execution time in milliseconds. -/
structure ExecResult where
  type : ResultType
  content : Json
  functionExecutionTime : Int
deriving Repr

/-- An agent-side view of one registry entry during message processing: the
verdict of the zod input schema on given arguments (none when parse accepts,
the issues thrown otherwise), and the result the execution wrapper produces
when the handler is actually invoked (the wrapper never throws, per section
4.3 of the spec; execute-fn.ts is not under src/). -/
structure AgentFunction where
  schemaParse : Json → Option (List ZodIssue)
  executed : ExecResult

/-- The environment of one processMessage run: the function registry and
the statuses the control plane answers with. -/
structure MessageEnv where
  registry : List (String × AgentFunction)
  ackStatus : Nat
  persistStatus : Nat

/-- Modelled from the spec: util.ts extractBlobs is not under src/.  For
content with no binary leaves — which is every value of the JSON model —
section 8 of the spec fixes its behaviour: the content is returned
unchanged and the blob sequence is empty. -/
def extractBlobs (content : Json) : Json × List Unit := (content, [])

/-- The externally visible actions of one processMessage run, in order:
control-plane calls and log lines.  The constructor logPersistFailure is
part of the vocabulary so that its absence can be stated; the source has no
log call on the persist-failure path. -/
inductive Event where
  | ackJob (jobId : String)
  | logFailedToAck (jobId : String)
  | logExecutingJob (jobId : String) (targetFn : String) (registered : Bool)
  | logExecutingFn (jobId : String) (targetFn : String)
  | logInvalidFormat (targetFn : String)
  | logSchemaIssue (targetFn : String) (message : String)
  | executeHandler (jobId : String) (targetFn : String)
  | logPersistingResult (jobId : String) (targetFn : String)
  | createResultCall (jobId : String) (resultType : ResultType) (content : Json)
  | createBlobCall (jobId : String)
  | logCompletedJob (jobId : String)
  | logPersistFailure (jobId : String)
deriving Repr

/-- Embedding of the onComplete closure: log, extract blobs, issue the
createResult call (whose body carries the packed content) and one
createBlob call per blob, then await them all; a createResult status of 204
completes the job, anything else throws the persist error carrying the
status, with no log call on that path. -/
def onComplete (env : MessageEnv) (job : Job) (result : ExecResult) :
    List Event × Except AgentError Unit :=
  let extracted := extractBlobs result.content
  let tr : List Event :=
    [.logPersistingResult job.id job.targetFn,
     .createResultCall job.id result.type extracted.1]
    ++ extracted.2.map (fun _ => Event.createBlobCall job.id)
  if env.persistStatus = 204 then (tr ++ [.logCompletedJob job.id], .ok ())
  else (tr, .error (.resultPersistFailed env.persistStatus job.id))

/-- The part of processMessage that follows the acknowledgement check; it
never reads the acknowledgement status.  An unregistered target persists a
not-registered rejection.  Otherwise the argument payload is decoded with
the packer (a parse failure throws, and an envelope whose parse result is
null throws on the property access); arguments that are not a plain keyed
object persist an invalid-format rejection; arguments the schema rejects
persist a rejection carrying every issue, without invoking the handler;
valid arguments are executed and the result persisted. -/
def processCore (env : MessageEnv) (job : Job) :
    List Event × Except AgentError Unit :=
  let registration := env.registry.lookup job.targetFn
  let headTrace : List Event :=
    [Event.logExecutingJob job.id job.targetFn registration.isSome]
  match registration with
  | none =>
    let oc := onComplete env job
      { type := .rejection
        content := serializeError (.notRegistered job.targetFn)
        functionExecutionTime := 0 }
    (headTrace ++ oc.1, oc.2)
  | some reg =>
    match Packer.parseDoc job.targetArgs with
    | none => (headTrace, .error .argsParseThrow)
    | some Json.null => (headTrace, .error .argsNullPropertyThrow)
    | some doc =>
      let args : Option Json :=
        match doc with
        | .obj fs => Packer.lookupLast fs ("value")
        | _ => none
      let fnTrace := headTrace ++ [Event.logExecutingFn job.id job.targetFn]
      match args with
      | some (Json.obj pairs) =>
        (match reg.schemaParse (Json.obj pairs) with
         | some issues =>
           let oc := onComplete env job
             { type := .rejection
               content := serializeError (.zod issues)
               functionExecutionTime := 0 }
           (fnTrace
              ++ issues.map (fun i => Event.logSchemaIssue job.targetFn i.message)
              ++ oc.1,
            oc.2)
         | none =>
           let oc := onComplete env job reg.executed
           (fnTrace ++ [Event.executeHandler job.id job.targetFn] ++ oc.1, oc.2))
      | _ =>
        let oc := onComplete env job
          { type := .rejection
            content := serializeError .invalidFormat
            functionExecutionTime := 0 }
        (fnTrace ++ [Event.logInvalidFormat job.targetFn] ++ oc.1, oc.2)

/-- Embedding of processMessage, for a message whose body decoded to a job
(none models a message with an empty body, which throws).  The job is
acknowledged first — before the argument payload is decoded, validated or
executed — a non-204 acknowledgement is only logged, and the remainder of
the run (processCore) never reads the acknowledgement status. -/
def processMessage (env : MessageEnv) (message : Option Job) :
    List Event × Except AgentError Unit :=
  match message with
  | none => ([], .error .emptyMessageBody)
  | some job =>
    let core := processCore env job
    (Event.ackJob job.id ::
       ((if env.ackStatus ≠ 204 then [Event.logFailedToAck job.id] else []) ++ core.1),
     core.2)

/-- The events tied to the acknowledgement step. -/
def isAckRelated : Event → Bool
  | .ackJob _ => true
  | .logFailedToAck _ => true
  | _ => false

/-- Embedding of the handleMessage callback passed to the consumer: it
calls processMessage without awaiting it and returns the message at once,
so the consumer always sees success; an error escaping processMessage is
not caught anywhere — it is only an unhandled promise rejection, returned
here as the leaked error. -/
def handleMessage (env : MessageEnv) (message : Option Job) :
    Option Job × Option AgentError :=
  (message,
   match (processMessage env message).2 with
   | .ok _ => none
   | .error e => some e)

end Agent

/-! ## Interleaved restarts (concurrent consumer lifecycle callbacks)

The consumer lifecycle callbacks are async functions that the event emitter
neither serializes nor awaits, so several checkAndRestartIfNeeded calls can
be in flight at once, interleaving at their await points.  The transition
system below gives each call a program counter whose atomic steps are the
synchronous segments of the source between awaits:

* ready: the guard of checkAndRestartIfNeeded and, when it holds, the body
  of stop up to consumer.stop (which only requests the stop) and the await
  of the consumer leaving its polling state;
* awaitStopped: suspended in stop until the consumer is no longer polling;
* afterStopWait: the rest of stop (listener removal, exit handler), the
  assignment clearing the consumer field, and the call into start, which
  suspends awaiting the createMachine response;
* awaitRegister: suspended until the createMachine response arrives; the
  resumption records the fresh credentials, then either throws because a
  consumer is already present, or installs and starts the new consumer.

A scheduler step either runs one task or lets the stopping consumer finish
draining (polling becomes false once a stop was requested).
-/

namespace Race

/-- The queue consumer as the restart path observes it. -/
structure RConsumer where
  id : Nat
  polling : Bool
  stopRequested : Bool
deriving DecidableEq, Repr

/-- Program counter of one in-flight checkAndRestartIfNeeded call. -/
inductive TaskPC where
  | ready
  | awaitStopped
  | afterStopWait
  | awaitRegister
  | finished
  | threwNotRunning
  | threwAlreadyStarted
deriving DecidableEq, Repr

/-- The agent state shared by the concurrent callbacks. -/
structure Shared where
  consumer : Option RConsumer
  credentialsExpiration : Option Int
  now : Int
  nextId : Nat
  freshExpiration : Int
deriving DecidableEq, Repr

/-- One atomic step of one checkAndRestartIfNeeded call, from its current
program counter, against the shared agent state. -/
def stepTask (sh : Shared) (pc : TaskPC) : Shared × TaskPC :=
  match pc with
  | .ready =>
    if Agent.restartNeeded sh.credentialsExpiration sh.now then
      match sh.consumer with
      | none => (sh, .threwNotRunning)
      | some c => ({ sh with consumer := some { c with stopRequested := true } }, .awaitStopped)
    else (sh, .finished)
  | .awaitStopped =>
    (match sh.consumer with
     | some c => if c.polling then (sh, .awaitStopped) else (sh, .afterStopWait)
     | none => (sh, .afterStopWait))
  | .afterStopWait => ({ sh with consumer := none }, .awaitRegister)
  | .awaitRegister =>
    let sh1 := { sh with credentialsExpiration := some sh.freshExpiration }
    (match sh1.consumer with
     | some _ => (sh1, .threwAlreadyStarted)
     | none =>
       ({ sh1 with
          consumer := some { id := sh1.nextId, polling := true, stopRequested := false }
          nextId := sh1.nextId + 1 },
        .finished))
  | pc => (sh, pc)

/-- A whole-system state: the shared agent state and two in-flight
lifecycle callbacks. -/
structure Sys where
  shared : Shared
  taskA : TaskPC
  taskB : TaskPC
deriving DecidableEq, Repr

/-- Scheduler choices: run one of the two callbacks for one atomic step, or
let the stop-requested consumer finish draining its in-flight receives. -/
inductive Sched where
  | runA
  | runB
  | consumerDrains
deriving DecidableEq, Repr

/-- One scheduler step. -/
def step (s : Sys) (a : Sched) : Sys :=
  match a with
  | .runA =>
    let r := stepTask s.shared s.taskA
    { s with shared := r.1, taskA := r.2 }
  | .runB =>
    let r := stepTask s.shared s.taskB
    { s with shared := r.1, taskB := r.2 }
  | .consumerDrains =>
    match s.shared.consumer with
    | some c =>
      if c.stopRequested then
        { s with shared := { s.shared with consumer := some { c with polling := false } } }
      else s
    | none => s

/-- Run a schedule. -/
def run (s : Sys) : List Sched → Sys
  | [] => s
  | a :: rest => run (step s a) rest

/-- A callback is inside a restart cycle from the moment it has asked the
consumer to stop until its start call completes or throws. -/
def inRestart : TaskPC → Bool
  | .awaitStopped => true
  | .afterStopWait => true
  | .awaitRegister => true
  | _ => false

/-- Initial state for the analysis: one polling consumer, credentials whose
recorded expiration is already in the past, and two lifecycle callbacks
(for example an error signal and an empty-queue signal) just dispatched. -/
def raceStart : Sys :=
  { shared :=
      { consumer := some { id := 0, polling := true, stopRequested := false }
        credentialsExpiration := some 0
        now := 100000
        nextId := 1
        freshExpiration := 3700000 }
    taskA := .ready
    taskB := .ready }

/-- The schedule that lets both callbacks enter the restart branch. -/
def bothEnter : List Sched := [.runA, .runB]

/-- A completion of that schedule: the consumer drains, both callbacks run
their restart to the end, the first installs a fresh consumer and the
second throws on the consumer-already-started check inside registerMachine. -/
def fullRace : List Sched :=
  [.runA, .runB, .consumerDrains, .runA, .runA, .runB, .runB, .runA, .runB]

end Race

/-! ## Concrete instances used by witnesses and counterexamples -/

namespace Client

/-- Validators that accept everything, with a fixed canonical schema. -/
def sampleUtil : UtilModel :=
  { validFunctionName := fun _ => true
    validDescription := fun _ => true
    schemaFailures := fun _ => []
    toJsonSchema := fun _ => "schema" }

/-- A freshly constructed client state. -/
def cState0 : ClientState :=
  { clusterId := none
    apiSecret := "sk_cluster_demo"
    endpoint := "https://api.inferable.ai"
    machineId := "m1"
    services := []
    functionRegistry := [] }

/-- One function definition. -/
def sampleFn : RegisterInput :=
  { name := "echo", serviceName := "svc", func := { tag := 1 }, inputSchema := 7 }

/-- The registration record sampleFn produces under sampleUtil. -/
def echoRegistration : FunctionRegistration :=
  { name := "echo", serviceName := "svc", func := { tag := 1 }
    schemaInput := 7, schemaInputJson := "schema" }

/-- The client state after registering sampleFn. -/
def regState1 : ClientState :=
  { cState0 with functionRegistry := [(("echo" : String), echoRegistration)] }

end Client

namespace Agent

/-- A packed argument payload whose unpacked value is the object with one
field a holding the number one. -/
def argsPayload : String := Packer.pack (Json.obj [(("a" : String), Json.num ⟨1, 0⟩)])

/-- An environment with an empty registry whose createResult answers 500. -/
def envNoReg : MessageEnv := { registry := [], ackStatus := 204, persistStatus := 500 }

/-- A job targeting an unregistered function. -/
def jobC : Job := { id := "j1", targetFn := "f", targetArgs := "x" }

/-- A successful execution result. -/
def okExec : ExecResult := { type := .resolution, content := Json.null, functionExecutionTime := 5 }

/-- A registry entry whose schema accepts everything. -/
def fnAccepts : AgentFunction := { schemaParse := fun _ => none, executed := okExec }

/-- Two validation issues. -/
def issueA : ZodIssue := { path := ["a"], message := "Expected number" }

/-- The second validation issue. -/
def issueB : ZodIssue := { path := ["b"], message := "Required" }

/-- A registry entry whose schema rejects everything with both issues. -/
def fnRejects : AgentFunction :=
  { schemaParse := fun _ => some [issueA, issueB], executed := okExec }

/-- An environment registering fnAccepts under the name f, whose
createResult answers 500. -/
def envAccepts : MessageEnv :=
  { registry := [(("f" : String), fnAccepts)], ackStatus := 204, persistStatus := 500 }

/-- An environment registering fnRejects under the name f, with successful
persistence. -/
def envRejects : MessageEnv :=
  { registry := [(("f" : String), fnRejects)], ackStatus := 204, persistStatus := 204 }

/-- A job targeting f with the packed argument payload. -/
def jobArgs : Job := { id := "j2", targetFn := "f", targetArgs := argsPayload }

/-- A failing createMachine response. -/
def resp500 : CreateMachineResponse :=
  { status := 500
    body :=
      { queueUrl := "q", region := "r", expiration := 0
        credentials := { accessKeyId := "a", secretAccessKey := "s", sessionToken := "t" }
        clusterId := "c" } }

/-- A fresh agent state. -/
def agent0 : AgentState := { serviceName := "svc" }

end Agent

/-! ## Theorems -/

/-! ### Claim C9: constructor-time secret validation -/

/-- C9: the Inferable constructor succeeds exactly when an API secret is
available — from the constructor option or the INFERABLE_API_SECRET
environment variable, combined with JavaScript truthiness — and that secret
starts with the sk_cluster_ magic; otherwise it throws, before any network
activity (the embedded constructor performs none). -/
theorem constructor_requires_cluster_secret (opts : Client.ConstructorOpts)
    (env : Client.EnvVars) (mid : String) :
    (∃ st, Client.construct opts env mid = Except.ok st) ↔
      ∃ s, Client.jsOr opts.apiSecret env.inferableApiSecret = some s ∧ s ≠ "" ∧
        s.startsWith ("sk_cluster_") = true := by
  unfold Client.construct
  cases h : Client.jsOr opts.apiSecret env.inferableApiSecret with
  | none => simp
  | some s =>
    by_cases hs : s = ""
    · subst hs
      simp
    · by_cases hp : s.startsWith ("sk_cluster_")
      · simp [hs, hp]
      · simp [hs, hp]

/-! ### Claim C8: registration and lookup -/

/-- Appending a fresh binding makes it the lookup result. -/
theorem lookup_append_single {α : Type} (ps : List (String × α)) (k : String) (v : α)
    (h : ps.lookup k = none) : (ps ++ [(k, v)]).lookup k = some v := by
  induction ps with
  | nil => simp [List.lookup]
  | cons a ps ih =>
    rcases a with ⟨k1, v1⟩
    simp only [List.cons_append, List.lookup] at h ⊢
    cases hbe : (k == k1)
    · simp only [hbe] at h ⊢
      exact ih h
    · rw [hbe] at h
      simp at h

/-- C8: for a valid definition — fresh name, passing validators, service not
yet started, callable handler — registerFunction succeeds, and looking the
name up in the resulting registry returns a registration holding exactly the
supplied name, service name, handler, schema, config, description and
authenticator; and when the name is already present in the registry — under
whichever owning service — registerFunction throws the duplicate-name error
without producing any new state, so the registry is left unchanged. -/
theorem register_then_lookup_and_duplicate (u : Client.UtilModel)
    (st : Client.ClientState) (inp : Client.RegisterInput) :
    ((st.functionRegistry.lookup inp.name = none ∧
      u.validFunctionName inp.name = true ∧
      u.validDescription inp.description = true ∧
      u.schemaFailures (u.toJsonSchema inp.inputSchema) = [] ∧
      st.services.contains inp.serviceName = false ∧
      inp.func.callable = true) →
      Client.registerFunction u st inp = .ok
          { st with functionRegistry := st.functionRegistry ++
              [(inp.name,
                { name := inp.name
                  serviceName := inp.serviceName
                  func := inp.func
                  schemaInput := inp.inputSchema
                  schemaInputJson := u.toJsonSchema inp.inputSchema
                  authenticate := inp.authenticate
                  config := inp.config
                  description := inp.description })] } ∧
        (st.functionRegistry ++
            [(inp.name,
              { name := inp.name
                serviceName := inp.serviceName
                func := inp.func
                schemaInput := inp.inputSchema
                schemaInputJson := u.toJsonSchema inp.inputSchema
                authenticate := inp.authenticate
                config := inp.config
                description := inp.description
                : Client.FunctionRegistration })]).lookup inp.name = some
          { name := inp.name
            serviceName := inp.serviceName
            func := inp.func
            schemaInput := inp.inputSchema
            schemaInputJson := u.toJsonSchema inp.inputSchema
            authenticate := inp.authenticate
            config := inp.config
            description := inp.description }) ∧
    (∀ r, st.functionRegistry.lookup inp.name = some r →
      Client.registerFunction u st inp = .error (.duplicateFunctionName inp.name)) := by
  constructor
  · rintro ⟨hfresh, hname, hdesc, hschema, hstarted, hfunc⟩
    have hstarted2 : inp.serviceName ∉ st.services := by simpa using hstarted
    constructor
    · unfold Client.registerFunction
      simp [hfresh, hname, hdesc, hschema, hstarted2, hfunc]
    · exact lookup_append_single _ _ _ hfresh
  · intro r hr
    unfold Client.registerFunction
    simp [hr]

/-- Witness for C8 at a concrete instance: registering the echo definition
on a fresh client succeeds, and registering the same name again on the
resulting state fails with the duplicate-name error. -/
theorem register_then_lookup_and_duplicate_witness :
    (∃ st1, Client.registerFunction Client.sampleUtil Client.cState0 Client.sampleFn
        = .ok st1) ∧
    Client.registerFunction Client.sampleUtil Client.regState1 Client.sampleFn
      = .error (Client.ClientError.duplicateFunctionName ("echo")) := by
  constructor
  · exact ⟨_, ((register_then_lookup_and_duplicate Client.sampleUtil Client.cState0
      Client.sampleFn).1 ⟨rfl, rfl, rfl, rfl, rfl, rfl⟩).1⟩
  · exact (register_then_lookup_and_duplicate Client.sampleUtil Client.regState1
      Client.sampleFn).2 Client.echoRegistration rfl

/-! ### Claim C10: a started service can never be started again -/

/-- registerFunction never touches the service list. -/
theorem registerFunction_services (u : Client.UtilModel) (st : Client.ClientState)
    (inp : Client.RegisterInput) (st1 : Client.ClientState)
    (h : Client.registerFunction u st inp = .ok st1) : st1.services = st.services := by
  simp only [Client.registerFunction] at h
  repeat' split at h
  all_goals (try cases h)
  all_goals rfl

/-- registerAll never touches the service list. -/
theorem registerAll_services (u : Client.UtilModel) :
    ∀ (fns : List Client.RegisterInput) (st : Client.ClientState),
      (Client.registerAll u st fns).1.services = st.services := by
  intro fns
  induction fns with
  | nil => intro st; rfl
  | cons f fs ih =>
    intro st
    unfold Client.registerAll
    cases h : Client.registerFunction u st f with
    | ok st1 => simpa [registerFunction_services u st f st1 h] using ih st1
    | error e => rfl

/-- Amended C10: after a successful start of a service, that name sits on
the instance service list; stop leaves the list untouched (a stopped
service is never removed), so every later start of the same name on the
same instance throws — it can never succeed — and it throws precisely the
service-already-started error whenever re-registering the definition
functions of the later call does not itself throw first (in particular
whenever that list is empty, the common case). -/
theorem service_restart_always_throws (u : Client.UtilModel)
    (st0 : Client.ClientState) (name : String) (fns : List Client.RegisterInput)
    (st1 : Client.ClientState)
    (h : Client.serviceStart u st0 name fns = (st1, none)) :
    Client.serviceStop st1 name = (st1, none)
    ∧ (∀ fns2, (Client.serviceStart u st1 name fns2).2 ≠ none)
    ∧ (∀ fns2,
        (Client.registerAll u st1 (fns2.map (fun f => { f with serviceName := name }))).2 = none →
        (Client.serviceStart u st1 name fns2).2
          = some (Client.ClientError.serviceAlreadyStarted name)) := by
  have hmem : name ∈ st1.services := by
    simp only [Client.serviceStart] at h
    split at h
    · simp at h
    · split at h
      · simp at h
      · have h1 := congrArg Prod.fst h
        simp at h1
        rw [← h1]
        simp
  have hcontains : st1.services.contains name = true := by simpa using hmem
  refine ⟨?_, ?_, ?_⟩
  · unfold Client.serviceStop
    rw [if_pos hcontains]
  · intro fns2
    simp only [Client.serviceStart]
    split
    · simp
    · have hs : (Client.registerAll u st1
          (fns2.map (fun f => { f with serviceName := name }))).1.services.contains name
          = true := by
        rw [registerAll_services]
        exact hcontains
      rw [if_pos hs]
      simp
  · intro fns2 hr
    simp only [Client.serviceStart]
    split
    · rename_i e he
      rw [hr] at he
      cases he
    · have hs : (Client.registerAll u st1
          (fns2.map (fun f => { f with serviceName := name }))).1.services.contains name
          = true := by
        rw [registerAll_services]
        exact hcontains
      rw [if_pos hs]

/-- Counterexample for C10 as stated: for a service whose definition
carries an inline function list, the first start succeeds, and a later
start of the same name throws the duplicate-function-name error from
re-registering that list — not the service-already-started error the claim
names. -/
theorem second_start_not_always_already_started :
    (Client.serviceStart Client.sampleUtil Client.cState0 ("svc") [Client.sampleFn]).2 = none
    ∧ (Client.serviceStart Client.sampleUtil
        (Client.serviceStart Client.sampleUtil Client.cState0 ("svc") [Client.sampleFn]).1
        ("svc") [Client.sampleFn]).2
      = some (Client.ClientError.duplicateFunctionName ("echo"))
    ∧ Client.ClientError.duplicateFunctionName ("echo")
      ≠ Client.ClientError.serviceAlreadyStarted ("svc") := by
  refine ⟨rfl, rfl, by decide⟩

/-- Witness for the amended C10 at a concrete instance: starting the svc
service succeeds; stopping it leaves the state unchanged; starting it again
(with no inline definition list) throws the service-already-started error. -/
theorem service_restart_always_throws_witness :
    Client.serviceStop { Client.cState0 with services := [("svc" : String)] } ("svc")
      = ({ Client.cState0 with services := [("svc" : String)] }, none)
    ∧ (Client.serviceStart Client.sampleUtil
        { Client.cState0 with services := [("svc" : String)] } ("svc") []).2
      = some (Client.ClientError.serviceAlreadyStarted ("svc")) := by
  have h := service_restart_always_throws Client.sampleUtil Client.cState0 ("svc") []
    { Client.cState0 with services := [("svc" : String)] } rfl
  exact ⟨h.1, h.2.2 [] rfl⟩

/-! ### Claim C2: the restart condition -/

/-- C2: on an error, empty-queue or batch-processed consumer signal the
agent performs the restart cycle — stop the consumer, discard it, call
start again — exactly when an expiration has been recorded and the
credentials are expired or strictly within one minute of expiry; with
fresher credentials, or before any registration recorded an expiration, the
signal causes no restart. -/
theorem signal_restarts_iff_near_expiry (sig : Agent.Signal)
    (credExp : Option Int) (now : Int)
    (hsig : sig = .errorSignal ∨ sig = .emptySignal ∨ sig = .responseProcessed) :
    ((Agent.onSignal sig credExp now
        = [.stopConsumer, .discardConsumer, .callStart]) ↔
      ∃ e, credExp = some e ∧ (now > e ∨ e - now < 60000))
    ∧ ((¬ ∃ e, credExp = some e ∧ (now > e ∨ e - now < 60000)) →
        Agent.onSignal sig credExp now = [])
    ∧ (credExp = none → Agent.onSignal sig credExp now = []) := by
  have hon : Agent.onSignal sig credExp now = Agent.checkAndRestartIfNeeded credExp now := by
    rcases hsig with h | h | h <;> subst h <;> rfl
  have hkey : Agent.checkAndRestartIfNeeded credExp now
      = [.stopConsumer, .discardConsumer, .callStart]
      ↔ ∃ e, credExp = some e ∧ (now > e ∨ e - now < 60000) := by
    unfold Agent.checkAndRestartIfNeeded Agent.restartNeeded
    cases credExp with
    | none => simp
    | some e =>
      by_cases hc : now > e ∨ e - now < 60000
      · rcases hc with hc | hc <;> simp [hc]
      · push_neg at hc
        simp [not_lt.mpr hc.1, not_lt.mpr hc.2]
  refine ⟨hon ▸ hkey, ?_, ?_⟩
  · intro hno
    rw [hon]
    unfold Agent.checkAndRestartIfNeeded Agent.restartNeeded
    cases credExp with
    | none => simp
    | some e =>
      push_neg at hno
      have := hno e rfl
      simp [not_lt.mpr this.1, not_lt.mpr this.2]
  · intro hnone
    subst hnone
    rw [hon]
    rfl

/-- Witness for C2 at concrete inputs: with an expiration in the past an
error signal restarts; with no recorded expiration an empty-queue signal
does not; with an expiration over a minute away a batch-processed signal
does not. -/
theorem signal_restarts_iff_near_expiry_witness :
    Agent.onSignal .errorSignal (some 0) 100000
      = [.stopConsumer, .discardConsumer, .callStart]
    ∧ Agent.onSignal .emptySignal none 100000 = []
    ∧ Agent.onSignal .responseProcessed (some 1000000) 100000 = [] := by
  refine ⟨?_, ?_, ?_⟩
  · exact (signal_restarts_iff_near_expiry .errorSignal (some 0) 100000
      (Or.inl rfl)).1.mpr ⟨0, rfl, by omega⟩
  · exact (signal_restarts_iff_near_expiry .emptySignal none 100000
      (Or.inr (Or.inl rfl))).2.2 rfl
  · exact (signal_restarts_iff_near_expiry .responseProcessed (some 1000000) 100000
      (Or.inr (Or.inr rfl))).2.1 (by rintro ⟨e, he, hc⟩; cases he; omega)

/-! ### Claim C5: registration failure is fatal to start -/

/-- C5: when the createMachine response has any status other than 200,
start — which delegates to registerMachine — throws the registration error
carrying that status and the response body; the single createMachine call
is the only action taken, so no retry happens inside the call and no
consumer is constructed. -/
theorem registration_failure_fatal (st : Agent.AgentState)
    (resp : Agent.CreateMachineResponse) (h : resp.status ≠ 200) :
    Agent.start st resp
      = ([.createMachineCall], .error (.registrationFailed resp.status resp.body))
    ∧ Agent.StartEvent.consumerCreated ∉ (Agent.start st resp).1
    ∧ (Agent.start st resp).1.count .createMachineCall = 1 := by
  have hmain : Agent.start st resp
      = ([.createMachineCall], .error (.registrationFailed resp.status resp.body)) := by
    unfold Agent.start Agent.registerMachine
    rw [if_pos h]
  refine ⟨hmain, ?_, ?_⟩
  · rw [hmain]
    simp
  · rw [hmain]
    rfl

/-- Witness for C5 at a concrete failing response. -/
theorem registration_failure_fatal_witness :
    Agent.start Agent.agent0 Agent.resp500
      = ([.createMachineCall],
         .error (.registrationFailed 500 Agent.resp500.body)) := by
  have h := registration_failure_fatal Agent.agent0 Agent.resp500 (by decide)
  exact h.1

/-! ### Claim C1: concurrent lifecycle signals and restarts -/

/-- C1: with expired credentials and two consumer lifecycle callbacks
dispatched, the interleaving in which the second callback runs its
expiry check while the first is suspended inside stop is reachable and
leaves both callbacks inside the restart cycle at once — nothing in
checkAndRestartIfNeeded serializes restarts — and completing the run makes
the second restart throw on the consumer-already-started check inside
registerMachine. -/
theorem concurrent_restarts_reachable :
    Agent.restartNeeded Race.raceStart.shared.credentialsExpiration
        Race.raceStart.shared.now = true
    ∧ Race.inRestart (Race.run Race.raceStart Race.bothEnter).taskA = true
    ∧ Race.inRestart (Race.run Race.raceStart Race.bothEnter).taskB = true
    ∧ (Race.run Race.raceStart Race.fullRace).taskB = Race.TaskPC.threwAlreadyStarted := by
  exact ⟨rfl, rfl, rfl, rfl⟩

/-! ### Claim C3: acknowledge first, acknowledgement is non-fatal -/

/-- The run after the acknowledgement check does not depend on the
acknowledgement status. -/
theorem processCore_ack_independent (env : Agent.MessageEnv) (job : Agent.Job)
    (s1 s2 : Nat) :
    Agent.processCore { env with ackStatus := s1 } job
      = Agent.processCore { env with ackStatus := s2 } job := rfl

/-- Every action after the acknowledgement step is unrelated to the
acknowledgement, and none of them is a persist-failure log — the source has
no log call on the persist-failure path. -/
theorem core_trace_events (env : Agent.MessageEnv) (job : Agent.Job) :
    ∀ e ∈ (Agent.processCore env job).1,
      Agent.isAckRelated e = false ∧ ∀ j, e ≠ Agent.Event.logPersistFailure j := by
  unfold Agent.processCore Agent.onComplete Agent.extractBlobs
  cases hl : List.lookup job.targetFn env.registry with
  | none => split <;> simp [Agent.isAckRelated]
  | some reg =>
    cases hd : Packer.parseDoc job.targetArgs with
    | none => simp [Agent.isAckRelated]
    | some doc =>
      cases doc with
      | null => simp [Agent.isAckRelated]
      | bool b => split <;> simp [Agent.isAckRelated]
      | num n => split <;> simp [Agent.isAckRelated]
      | str s => split <;> simp [Agent.isAckRelated]
      | arr l => split <;> simp [Agent.isAckRelated]
      | obj gs =>
        cases ha : Packer.lookupLast gs ("value") with
        | none => split <;> simp [Agent.isAckRelated, ha]
        | some v =>
          cases v with
          | null => split <;> simp [Agent.isAckRelated, ha]
          | bool b => split <;> simp [Agent.isAckRelated, ha]
          | num n => split <;> simp [Agent.isAckRelated, ha]
          | str s => split <;> simp [Agent.isAckRelated, ha]
          | arr l => split <;> simp [Agent.isAckRelated, ha]
          | obj pairs =>
            cases hs : reg.schemaParse (Json.obj pairs) with
            | some issues =>
              split
              · simp only [Agent.isAckRelated, ha, hs]
                simp
                rintro a (⟨i, hi, rfl⟩ | rfl | rfl | rfl) <;> simp
              · simp only [Agent.isAckRelated, ha, hs]
                simp
                rintro a (⟨i, hi, rfl⟩ | rfl | rfl) <;> simp
            | none => split <;> simp [Agent.isAckRelated, ha, hs]

/-- No acknowledgement call appears after the acknowledgement step. -/
theorem ackJob_not_in_core (env : Agent.MessageEnv) (job : Agent.Job) (j : String) :
    Agent.Event.ackJob j ∉ (Agent.processCore env job).1 := by
  intro hmem
  have h := core_trace_events env job _ hmem
  exact absurd h.1 (by simp [Agent.isAckRelated])

/-- No acknowledgement-failure log appears after the acknowledgement step. -/
theorem logFailedToAck_not_in_core (env : Agent.MessageEnv) (job : Agent.Job) (j : String) :
    Agent.Event.logFailedToAck j ∉ (Agent.processCore env job).1 := by
  intro hmem
  have h := core_trace_events env job _ hmem
  exact absurd h.1 (by simp [Agent.isAckRelated])

/-- No persist-failure log is ever emitted: the source has no log call on
the persist-failure path. -/
theorem logPersistFailure_not_in_core (env : Agent.MessageEnv) (job : Agent.Job) (j : String) :
    Agent.Event.logPersistFailure j ∉ (Agent.processCore env job).1 := by
  intro hmem
  have h := core_trace_events env job _ hmem
  exact h.2 j rfl

/-- C3: for every message that decoded to a job, the acknowledgement call is
the very first action of processMessage — before the argument payload is
decoded, validated, or any handler executed; the outcome of the run does
not depend on the acknowledgement status; the acknowledgement-failure log
appears exactly when the status is not 204; and apart from the
acknowledgement step the actions of the run are the same whatever the
acknowledgement status — execution and result persistence proceed
regardless. -/
theorem ack_first_and_nonfatal (env : Agent.MessageEnv) (job : Agent.Job) (s1 s2 : Nat) :
    ((Agent.processMessage { env with ackStatus := s1 } (some job)).1.head?
        = some (Agent.Event.ackJob job.id))
    ∧ ((Agent.processMessage { env with ackStatus := s1 } (some job)).2
        = (Agent.processMessage { env with ackStatus := s2 } (some job)).2)
    ∧ ((Agent.Event.logFailedToAck job.id
          ∈ (Agent.processMessage { env with ackStatus := s1 } (some job)).1) ↔ s1 ≠ 204)
    ∧ ((Agent.processMessage { env with ackStatus := s1 } (some job)).1.filter
          (fun e => !(Agent.isAckRelated e))
        = (Agent.processMessage { env with ackStatus := s2 } (some job)).1.filter
          (fun e => !(Agent.isAckRelated e))) := by
  refine ⟨rfl, ?_, ?_, ?_⟩
  · show (Agent.processCore { env with ackStatus := s1 } job).2
      = (Agent.processCore { env with ackStatus := s2 } job).2
    rw [processCore_ack_independent env job s1 s2]
  · constructor
    · intro hmem
      intro h204
      subst h204
      have hshape : (Agent.processMessage { env with ackStatus := 204 } (some job)).1
          = Agent.Event.ackJob job.id
            :: (Agent.processCore { env with ackStatus := 204 } job).1 := by
        simp [Agent.processMessage]
      rw [hshape] at hmem
      rcases List.mem_cons.mp hmem with h | h
      · cases h
      · exact logFailedToAck_not_in_core _ job job.id h
    · intro hne
      have hshape : (Agent.processMessage { env with ackStatus := s1 } (some job)).1
          = Agent.Event.ackJob job.id
            :: (Agent.Event.logFailedToAck job.id
                :: (Agent.processCore { env with ackStatus := s1 } job).1) := by
        simp [Agent.processMessage, hne]
      rw [hshape]
      simp
  · simp only [Agent.processMessage]
    by_cases h1 : s1 = 204 <;> by_cases h2 : s2 = 204 <;>
      simp [h1, h2, Agent.isAckRelated,
        processCore_ack_independent env job s1 s2,
        processCore_ack_independent env job s1 204,
        processCore_ack_independent env job 204 s2]

/-! ### Claim C4: schema-validation failures -/

/-- The serialized form of a zod error lists the message of every issue
under its issues property, in order — all of them, not just the first. -/
theorem issueMessages_serialized_zod (issues : List Agent.ZodIssue) :
    Agent.issueMessages (Agent.serializeError (.zod issues))
      = issues.map (fun i => i.message) := by
  simp only [Agent.serializeError, Agent.issueMessages]
  induction issues with
  | nil => rfl
  | cons i rest ih =>
    simpa [Agent.zodIssueJson, Packer.lookupLast, List.filterMap_cons] using ih

/-- C4: when the target function is registered, the decoded argument
payload is a plain keyed object, and the schema rejects it with a list of
issues, processMessage persists a rejection whose content is the serialized
zod error — carrying the message of every issue — and the handler is never
invoked during the run. -/
theorem schema_rejection_carries_all_issues (env : Agent.MessageEnv) (job : Agent.Job)
    (reg : Agent.AgentFunction) (docFields pairs : List (String × Json))
    (issues : List Agent.ZodIssue)
    (hreg : env.registry.lookup job.targetFn = some reg)
    (hdoc : Packer.parseDoc job.targetArgs = some (Json.obj docFields))
    (hargs : Packer.lookupLast docFields ("value") = some (Json.obj pairs))
    (hschema : reg.schemaParse (Json.obj pairs) = some issues) :
    (∀ i fn, Agent.Event.executeHandler i fn ∉ (Agent.processMessage env (some job)).1)
    ∧ Agent.Event.createResultCall job.id .rejection
        (Agent.serializeError (.zod issues)) ∈ (Agent.processMessage env (some job)).1
    ∧ Agent.issueMessages (Agent.serializeError (.zod issues))
      = issues.map (fun i => i.message) := by
  have hcore : (Agent.processCore env job).1
      = Agent.Event.logExecutingJob job.id job.targetFn true
        :: Agent.Event.logExecutingFn job.id job.targetFn
        :: (issues.map (fun i => Agent.Event.logSchemaIssue job.targetFn i.message)
            ++ [Agent.Event.logPersistingResult job.id job.targetFn,
                Agent.Event.createResultCall job.id .rejection
                  (Agent.serializeError (.zod issues))]
            ++ (if env.persistStatus = 204 then [Agent.Event.logCompletedJob job.id] else [])) := by
    simp only [Agent.processCore, Agent.onComplete, Agent.extractBlobs, hreg, hdoc, hargs, hschema]
    split <;> simp
  have hmsg : (Agent.processMessage env (some job)).1
      = Agent.Event.ackJob job.id
        :: ((if env.ackStatus ≠ 204 then [Agent.Event.logFailedToAck job.id] else [])
            ++ (Agent.processCore env job).1) := by
    simp [Agent.processMessage]
  refine ⟨?_, ?_, issueMessages_serialized_zod issues⟩
  · intro i fn hmem
    rw [hmsg, hcore] at hmem
    by_cases hack : env.ackStatus = 204 <;> by_cases hper : env.persistStatus = 204 <;>
      simp [hack, hper] at hmem
  · rw [hmsg, hcore]
    simp

/-- Witness for C4 at a concrete instance: a registered function whose
schema rejects the supplied object with two issues; the rejection carrying
both messages is persisted and the handler is not invoked. -/
theorem schema_rejection_carries_all_issues_witness :
    Agent.Event.createResultCall ("j2") .rejection
        (Agent.serializeError (.zod [Agent.issueA, Agent.issueB]))
      ∈ (Agent.processMessage Agent.envRejects (some Agent.jobArgs)).1
    ∧ (∀ i fn, Agent.Event.executeHandler i fn
        ∉ (Agent.processMessage Agent.envRejects (some Agent.jobArgs)).1)
    ∧ Agent.issueMessages (Agent.serializeError (.zod [Agent.issueA, Agent.issueB]))
      = [("Expected number" : String), "Required"] := by
  have h := schema_rejection_carries_all_issues Agent.envRejects Agent.jobArgs
    Agent.fnRejects
    [(("value" : String), Json.obj [(("a" : String), Json.num ⟨1, 0⟩)])]
    [(("a" : String), Json.num ⟨1, 0⟩)]
    [Agent.issueA, Agent.issueB]
    rfl rfl rfl rfl
  exact ⟨h.2.1, h.1, by rw [h.2.2]; rfl⟩

/-! ### Claim C6: failed result persistence -/

/-- Counterexample for C6 as stated: at a concrete run whose createResult
answers 500, processMessage raises the distinguishable persist error — but
nothing in the trace logs that failure (there is no logPersistFailure
action, because the source has no log call on that path), so the failure is
raised and not logged. -/
theorem persist_failure_not_logged :
    Agent.processMessage Agent.envNoReg (some Agent.jobC)
      = ([Agent.Event.ackJob ("j1"),
          Agent.Event.logExecutingJob ("j1") ("f") false,
          Agent.Event.logPersistingResult ("j1") ("f"),
          Agent.Event.createResultCall ("j1") .rejection
            (Agent.serializeError (.notRegistered ("f")))],
         .error (.resultPersistFailed 500 ("j1")))
    ∧ Agent.Event.logPersistFailure ("j1")
        ∉ (Agent.processMessage Agent.envNoReg (some Agent.jobC)).1 := by
  constructor
  · rfl
  · intro hmem
    rw [show (Agent.processMessage Agent.envNoReg (some Agent.jobC)).1
        = [Agent.Event.ackJob ("j1"),
           Agent.Event.logExecutingJob ("j1") ("f") false,
           Agent.Event.logPersistingResult ("j1") ("f"),
           Agent.Event.createResultCall ("j1") .rejection
             (Agent.serializeError (.notRegistered ("f")))] from rfl] at hmem
    simp at hmem

/-- Amended C6: for every run that reaches result persistence (the target
is registered and the argument payload parses to an object), a createResult
status other than 204 makes processMessage fail with the distinguishable
persist error carrying that status and the job id; the agent never logs the
failure; and handleMessage — which does not await processMessage — still
returns the message normally, so the consumer is unaffected and keeps
processing subsequent messages while the error escapes only as an
unhandled promise rejection. -/
theorem persist_failure_contained (env : Agent.MessageEnv) (job : Agent.Job)
    (reg : Agent.AgentFunction) (docFields : List (String × Json))
    (hreg : env.registry.lookup job.targetFn = some reg)
    (hdoc : Packer.parseDoc job.targetArgs = some (Json.obj docFields))
    (hper : env.persistStatus ≠ 204) :
    (Agent.processMessage env (some job)).2
        = .error (.resultPersistFailed env.persistStatus job.id)
    ∧ Agent.Event.logPersistFailure job.id ∉ (Agent.processMessage env (some job)).1
    ∧ Agent.handleMessage env (some job)
        = (some job, some (.resultPersistFailed env.persistStatus job.id)) := by
  have hout : (Agent.processMessage env (some job)).2
      = .error (.resultPersistFailed env.persistStatus job.id) := by
    have : (Agent.processMessage env (some job)).2 = (Agent.processCore env job).2 := by
      simp [Agent.processMessage]
    rw [this]
    simp only [Agent.processCore, Agent.onComplete, Agent.extractBlobs, hreg, hdoc]
    cases ha : Packer.lookupLast docFields ("value") with
    | none => simp [ha, hper]
    | some v =>
      cases v with
      | null => simp [ha, hper]
      | bool b => simp [ha, hper]
      | num n => simp [ha, hper]
      | str sv => simp [ha, hper]
      | arr l => simp [ha, hper]
      | obj pairs =>
        cases hs : reg.schemaParse (Json.obj pairs) with
        | some issues => simp [ha, hs, hper]
        | none => simp [ha, hs, hper]
  refine ⟨hout, ?_, ?_⟩
  · intro hmem
    have hshape : (Agent.processMessage env (some job)).1
        = Agent.Event.ackJob job.id
          :: ((if env.ackStatus ≠ 204 then [Agent.Event.logFailedToAck job.id] else [])
              ++ (Agent.processCore env job).1) := by
      simp [Agent.processMessage]
    rw [hshape] at hmem
    rcases List.mem_cons.mp hmem with h | h
    · cases h
    · rcases List.mem_append.mp h with h | h
      · split at h <;> simp at h
      · exact logPersistFailure_not_in_core env job job.id h
  · unfold Agent.handleMessage
    rw [hout]

/-- Witness for the amended C6 at a concrete instance: a registered
function with valid arguments, createResult answering 500. -/
theorem persist_failure_contained_witness :
    (Agent.processMessage Agent.envAccepts (some Agent.jobArgs)).2
        = .error (.resultPersistFailed 500 ("j2"))
    ∧ Agent.handleMessage Agent.envAccepts (some Agent.jobArgs)
        = (some Agent.jobArgs, some (.resultPersistFailed 500 ("j2"))) := by
  have h := persist_failure_contained Agent.envAccepts Agent.jobArgs Agent.fnAccepts
    [(("value" : String), Json.obj [(("a" : String), Json.num ⟨1, 0⟩)])]
    rfl rfl (by decide)
  exact ⟨h.1, h.2.2⟩

/-! ### Claim C7: the packer round-trips -/

/-- The facts the parser needs about a decimal digit character. -/
theorem digitChar_facts (d : Nat) (h : d < 10) :
    Packer.isDigitCh (Packer.digitChar d) = true
    ∧ (Packer.digitChar d).toNat - 48 = d
    ∧ Packer.isJsonWs (Packer.digitChar d) = false
    ∧ Packer.digitChar d ≠ 'n' ∧ Packer.digitChar d ≠ 't' ∧ Packer.digitChar d ≠ 'f'
    ∧ Packer.digitChar d ≠ '"' ∧ Packer.digitChar d ≠ '[' ∧ Packer.digitChar d ≠ '{'
    ∧ Packer.digitChar d ≠ '-' ∧ Packer.digitChar d ≠ '.'
    ∧ Packer.digitChar d ≠ ']' ∧ Packer.digitChar d ≠ '}' := by
  interval_cases d <;> decide

/-- Hexadecimal reading inverts the printing of a digit below ten. -/
theorem parseHexDigit_digitChar (d : Nat) (h : d < 10) :
    Packer.parseHexDigit (Packer.digitChar d) = some d := by
  interval_cases d <;> decide

/-- Hexadecimal reading inverts the printing of a letter digit. -/
theorem parseHexDigit_letter (m : Nat) (h1 : 10 ≤ m) (h2 : m < 16) :
    Packer.parseHexDigit (Char.ofNat (87 + m)) = some m := by
  interval_cases m <;> decide

/-- With enough fuel the structural digit function agrees with Nat.digits. -/
theorem natDigitsFuel_eq : ∀ (fuel n : Nat), n ≤ fuel →
    Packer.natDigitsFuel fuel n = Nat.digits 10 n := by
  intro fuel
  induction fuel with
  | zero =>
    intro n h
    interval_cases n
    simp [Packer.natDigitsFuel]
  | succ m ih =>
    intro n h
    cases n with
    | zero => simp [Packer.natDigitsFuel]
    | succ k =>
      rw [show Packer.natDigitsFuel (m + 1) (k + 1)
          = ((k + 1) % 10) :: Packer.natDigitsFuel m ((k + 1) / 10) from rfl]
      rw [ih ((k + 1) / 10) (by omega)]
      rw [Nat.digits_def' (by norm_num : (1 : ℕ) < 10) (Nat.succ_pos k)]

/-- The little-endian digit list agrees with Nat.digits. -/
theorem natDigitsLE_eq (n : Nat) : Packer.natDigitsLE n = Nat.digits 10 n :=
  natDigitsFuel_eq n n le_rfl

/-- Folding up a big-endian digit list undoes the little-endian expansion. -/
theorem foldl_digits (ds : List Nat) : ∀ acc : Nat,
    ds.foldl (fun a d => 10 * a + d) acc = acc * 10 ^ ds.length + Nat.ofDigits 10 ds.reverse := by
  induction ds with
  | nil => intro acc; simp
  | cons d ds ih =>
    intro acc
    rw [List.foldl_cons, ih, List.reverse_cons, Nat.ofDigits_append]
    simp [Nat.ofDigits_singleton]
    ring

/-- Reading back the printed digits of a natural number returns it. -/
theorem digitsVal_rev (n : Nat) :
    Packer.digitsVal ((Nat.digits 10 n).reverse) = n := by
  unfold Packer.digitsVal
  rw [foldl_digits]
  simp [Nat.ofDigits_digits]

/-- Leading zero digits do not change the value read. -/
theorem digitsVal_zeros (k : Nat) (ds : List Nat) :
    Packer.digitsVal (List.replicate k 0 ++ ds) = Packer.digitsVal ds := by
  unfold Packer.digitsVal
  rw [List.foldl_append]
  congr 1
  induction k with
  | zero => rfl
  | succ m ih =>
    rw [List.replicate_succ, List.foldl_cons]
    simpa using ih

/-- The digit scan reads exactly a printed digit run when what follows does
not begin with a digit. -/
theorem takeDigits_digits (ds : List Nat) (rest : List Char)
    (hds : ∀ d ∈ ds, d < 10)
    (hrest : ∀ c cs, rest = c :: cs → Packer.isDigitCh c = false) :
    Packer.takeDigits (ds.map Packer.digitChar ++ rest) = (ds, rest) := by
  induction ds with
  | nil =>
    simp only [List.map_nil, List.nil_append]
    cases rest with
    | nil => rfl
    | cons c cs =>
      unfold Packer.takeDigits
      rw [if_neg (by simp [hrest c cs rfl])]
  | cons d ds ih =>
    have hd := digitChar_facts d (hds d (by simp))
    simp only [List.map_cons, List.cons_append]
    unfold Packer.takeDigits
    rw [if_pos hd.1]
    simp only [ih (fun x hx => hds x (List.mem_cons_of_mem _ hx))]
    rw [hd.2.1]

/-- Bridge: reading a number that begins with a minus sign. -/
theorem parseNum_minus (X : List Char) :
    Packer.parseNum ('-' :: X)
      = (match Packer.takeDigits X with
         | ([], _) => none
         | (ds, r) =>
           match r with
           | '.' :: r2 =>
             (match Packer.takeDigits r2 with
              | ([], _) => none
              | (fs, r3) =>
                some (⟨Packer.intOfSign true
                    (Packer.digitsVal ds * 10 ^ fs.length + Packer.digitsVal fs),
                    fs.length⟩, r3))
           | _ => some (⟨Packer.intOfSign true (Packer.digitsVal ds), 0⟩, r)) := rfl

/-- Bridge: reading a number that does not begin with a minus sign. -/
theorem parseNum_other (c : Char) (hc : c ≠ '-') (X : List Char) :
    Packer.parseNum (c :: X)
      = (match Packer.takeDigits (c :: X) with
         | ([], _) => none
         | (ds, r) =>
           match r with
           | '.' :: r2 =>
             (match Packer.takeDigits r2 with
              | ([], _) => none
              | (fs, r3) =>
                some (⟨Packer.intOfSign false
                    (Packer.digitsVal ds * 10 ^ fs.length + Packer.digitsVal fs),
                    fs.length⟩, r3))
           | _ => some (⟨Packer.intOfSign false (Packer.digitsVal ds), 0⟩, r)) := by
  unfold Packer.parseNum
  have hp : (match c :: X with
      | '-' :: r => (true, r)
      | _ => (false, c :: X)) = (false, c :: X) := by
    split
    · rename_i heq
      rw [List.cons.injEq] at heq
      exact absurd heq.1 hc
    · rfl
  rw [hp]

/-- The digit characters of a natural number come from a digit list. -/
theorem natChars_map (n : Nat) :
    Packer.natChars n
      = (if n = 0 then [0] else (Nat.digits 10 n).reverse).map Packer.digitChar := by
  unfold Packer.natChars
  split <;> simp [natDigitsLE_eq]

/-- Digits of the printed integer list are below ten. -/
theorem natList_lt (n : Nat) :
    ∀ d ∈ (if n = 0 then [0] else (Nat.digits 10 n).reverse), d < 10 := by
  split
  · intro d hd
    simp at hd
    omega
  · intro d hd
    exact Nat.digits_lt_base (by norm_num) (List.mem_reverse.mp hd)

/-- The printed integer list reads back to its number. -/
theorem natList_val (n : Nat) :
    Packer.digitsVal (if n = 0 then [0] else (Nat.digits 10 n).reverse) = n := by
  split
  · rename_i h
    subst h
    rfl
  · exact digitsVal_rev n

/-- The printed integer list is never empty. -/
theorem natList_ne_nil (n : Nat) :
    (if n = 0 then [0] else (Nat.digits 10 n).reverse) ≠ [] := by
  split
  · simp
  · rename_i h
    simp [Nat.digits_ne_nil_iff_ne_zero, h]

/-- A number below a power of ten has at most that many digits. -/
theorem digits_length_le (m e : Nat) (h : m < 10 ^ e) :
    (Nat.digits 10 m).length ≤ e := by
  rcases Nat.eq_zero_or_pos m with rfl | hm
  · simp
  · rw [Nat.digits_len 10 m (by norm_num) (by omega)]
    have : Nat.log 10 m < e := Nat.log_lt_of_lt_pow (by omega) h
    omega

/-- Facts about the zero-padded fraction digit list of the printed decimal:
its digits are below ten, its length is the exponent, it reads back to the
remainder, and it is nonempty. -/
theorem fracList_facts (a e : Nat) (he : 0 < e) :
    (∀ d ∈ List.replicate (e - (Nat.digits 10 (a % 10 ^ e)).length) 0
        ++ (Nat.digits 10 (a % 10 ^ e)).reverse, d < 10)
    ∧ (List.replicate (e - (Nat.digits 10 (a % 10 ^ e)).length) 0
        ++ (Nat.digits 10 (a % 10 ^ e)).reverse).length = e
    ∧ Packer.digitsVal (List.replicate (e - (Nat.digits 10 (a % 10 ^ e)).length) 0
        ++ (Nat.digits 10 (a % 10 ^ e)).reverse) = a % 10 ^ e
    ∧ (List.replicate (e - (Nat.digits 10 (a % 10 ^ e)).length) 0
        ++ (Nat.digits 10 (a % 10 ^ e)).reverse) ≠ [] := by
  have hlt : a % 10 ^ e < 10 ^ e := Nat.mod_lt _ (by positivity)
  have hlen : (Nat.digits 10 (a % 10 ^ e)).length ≤ e := digits_length_le _ _ hlt
  refine ⟨?_, ?_, ?_, ?_⟩
  · intro d hd
    rcases List.mem_append.mp hd with hd | hd
    · have := List.eq_of_mem_replicate hd
      omega
    · exact Nat.digits_lt_base (by norm_num) (List.mem_reverse.mp hd)
  · rw [List.length_append, List.length_replicate, List.length_reverse]
    omega
  · rw [digitsVal_zeros, digitsVal_rev]
  · intro hc
    have h2 := congrArg List.length hc
    rw [List.length_append, List.length_replicate, List.length_reverse,
      List.length_nil] at h2
    omega




theorem parseNum_numChars (x : JsonNumber) (rest : List Char)
    (hb : Packer.numBoundary rest = true) :
    Packer.parseNum (Packer.numChars x ++ rest) = some (x, rest) := by
  have hrestD : ∀ c cs, rest = c :: cs → Packer.isDigitCh c = false := by
    intro c cs hc
    subst hc
    simp only [Packer.numBoundary, Bool.and_eq_true, Bool.not_eq_true'] at hb
    exact hb.1
  have hnotdot : ∀ cs, rest ≠ '.' :: cs := by
    intro cs hc
    rw [hc] at hb
    simp [Packer.numBoundary, Packer.isDigitCh] at hb
  by_cases hE : x.exponent = 0
  · have hsh : Packer.numChars x
        = (if x.mantissa < 0 then ['-'] else [])
          ++ (if x.mantissa.natAbs = 0 then [0]
              else (Nat.digits 10 x.mantissa.natAbs).reverse).map Packer.digitChar := by
      unfold Packer.numChars
      rw [if_pos hE, natChars_map]
    obtain ⟨d0, dtl, hdl⟩ := List.exists_cons_of_ne_nil (natList_ne_nil x.mantissa.natAbs)
    have hlt2 : ∀ d ∈ d0 :: dtl, d < 10 := by
      rw [← hdl]
      exact natList_lt _
    have htd : Packer.takeDigits (Packer.digitChar d0 :: (dtl.map Packer.digitChar ++ rest))
        = (d0 :: dtl, rest) := by
      have h0 := takeDigits_digits (d0 :: dtl) rest hlt2 hrestD
      simpa using h0
    have hval : Packer.digitsVal (d0 :: dtl) = x.mantissa.natAbs := by
      rw [← hdl, natList_val]
    by_cases hm : x.mantissa < 0
    · rw [hsh, if_pos hm, hdl]
      simp only [List.map_cons, List.singleton_append, List.cons_append, List.append_assoc,
        List.nil_append]
      rw [parseNum_minus, htd]
      dsimp only
      split
      · exact absurd rfl (hnotdot _)
      · rw [hval]
        have hsign : Packer.intOfSign true x.mantissa.natAbs = x.mantissa := by
          unfold Packer.intOfSign
          rw [if_pos rfl]
          omega
        rw [hsign, ← hE]
    · rw [hsh, if_neg hm, hdl]
      simp only [List.map_cons, List.cons_append, List.append_assoc, List.nil_append]
      rw [parseNum_other _ (digitChar_facts d0 (hlt2 d0 (by simp))).2.2.2.2.2.2.2.2.2.1 _]
      rw [htd]
      dsimp only
      split
      · exact absurd rfl (hnotdot _)
      · rw [hval]
        have hsign : Packer.intOfSign false x.mantissa.natAbs = x.mantissa := by
          unfold Packer.intOfSign
          rw [if_neg (by simp)]
          omega
        rw [hsign, ← hE]
  · have hepos : 0 < x.exponent := Nat.pos_of_ne_zero hE
    have hff := fracList_facts x.mantissa.natAbs x.exponent hepos
    have hsh : Packer.numChars x
        = (if x.mantissa < 0 then ['-'] else [])
          ++ ((if x.mantissa.natAbs / 10 ^ x.exponent = 0 then [0]
               else (Nat.digits 10 (x.mantissa.natAbs / 10 ^ x.exponent)).reverse).map
                 Packer.digitChar
              ++ ('.' ::
                (List.replicate
                    (x.exponent - (Nat.digits 10 (x.mantissa.natAbs % 10 ^ x.exponent)).length) 0
                  ++ (Nat.digits 10 (x.mantissa.natAbs % 10 ^ x.exponent)).reverse).map
                  Packer.digitChar)) := by
      unfold Packer.numChars
      rw [if_neg hE]
      simp [natChars_map, natDigitsLE_eq, List.map_append, List.map_replicate]
    obtain ⟨d0, dtl, hdl⟩ :=
      List.exists_cons_of_ne_nil (natList_ne_nil (x.mantissa.natAbs / 10 ^ x.exponent))
    have hlt2 : ∀ d ∈ d0 :: dtl, d < 10 := by
      rw [← hdl]
      exact natList_lt _
    obtain ⟨f0, ftl, hfl⟩ := List.exists_cons_of_ne_nil hff.2.2.2
    have hdotcons : ∀ c cs,
        ('.' :: ((List.replicate
            (x.exponent - (Nat.digits 10 (x.mantissa.natAbs % 10 ^ x.exponent)).length) 0
          ++ (Nat.digits 10 (x.mantissa.natAbs % 10 ^ x.exponent)).reverse).map
            Packer.digitChar ++ rest)) = c :: cs → Packer.isDigitCh c = false := by
      intro c cs hc
      rw [List.cons.injEq] at hc
      rw [← hc.1]
      decide
    have htdInt : Packer.takeDigits
        (Packer.digitChar d0 :: (dtl.map Packer.digitChar
          ++ ('.' :: ((List.replicate
                (x.exponent - (Nat.digits 10 (x.mantissa.natAbs % 10 ^ x.exponent)).length) 0
              ++ (Nat.digits 10 (x.mantissa.natAbs % 10 ^ x.exponent)).reverse).map
                Packer.digitChar ++ rest))))
        = (d0 :: dtl,
           '.' :: ((List.replicate
                (x.exponent - (Nat.digits 10 (x.mantissa.natAbs % 10 ^ x.exponent)).length) 0
              ++ (Nat.digits 10 (x.mantissa.natAbs % 10 ^ x.exponent)).reverse).map
                Packer.digitChar ++ rest)) := by
      have h0 := takeDigits_digits (d0 :: dtl) _ hlt2 hdotcons
      simpa using h0
    have htdFrac : Packer.takeDigits
        ((List.replicate
            (x.exponent - (Nat.digits 10 (x.mantissa.natAbs % 10 ^ x.exponent)).length) 0
          ++ (Nat.digits 10 (x.mantissa.natAbs % 10 ^ x.exponent)).reverse).map
            Packer.digitChar ++ rest)
        = ((List.replicate
            (x.exponent - (Nat.digits 10 (x.mantissa.natAbs % 10 ^ x.exponent)).length) 0
          ++ (Nat.digits 10 (x.mantissa.natAbs % 10 ^ x.exponent)).reverse), rest) :=
      takeDigits_digits _ _ hff.1 hrestD
    have hintval : Packer.digitsVal (d0 :: dtl)
        = x.mantissa.natAbs / 10 ^ x.exponent := by
      rw [← hdl, natList_val]
    have hfracval : Packer.digitsVal (f0 :: ftl)
        = x.mantissa.natAbs % 10 ^ x.exponent := by
      rw [← hfl, hff.2.2.1]
    have hfraclen : (f0 :: ftl).length = x.exponent := by
      rw [← hfl, hff.2.1]
    have hfinal : ∀ neg : Bool,
        Packer.intOfSign neg
            (Packer.digitsVal (d0 :: dtl) * 10 ^ (f0 :: ftl).length
              + Packer.digitsVal (f0 :: ftl))
          = Packer.intOfSign neg x.mantissa.natAbs := by
      intro neg
      rw [hintval, hfracval, hfraclen, mul_comm, Nat.div_add_mod]
    by_cases hm : x.mantissa < 0
    · rw [hsh, if_pos hm, hdl]
      simp only [List.map_cons, List.singleton_append, List.cons_append, List.append_assoc,
        List.nil_append]
      rw [parseNum_minus, htdInt]
      dsimp only
      split
      · rename_i r2 heq
        rw [List.cons.injEq] at heq
        rw [← heq.2, htdFrac, hfl]
        dsimp only
        rw [hfinal true, hfraclen]
        have hsign : Packer.intOfSign true x.mantissa.natAbs = x.mantissa := by
          unfold Packer.intOfSign
          rw [if_pos rfl]
          omega
        rw [hsign]
      · rename_i h
        exact absurd rfl (h _)
    · rw [hsh, if_neg hm, hdl]
      simp only [List.map_cons, List.cons_append, List.append_assoc, List.nil_append]
      rw [parseNum_other _ (digitChar_facts d0 (hlt2 d0 (by simp))).2.2.2.2.2.2.2.2.2.1 _]
      rw [htdInt]
      dsimp only
      split
      · rename_i r2 heq
        rw [List.cons.injEq] at heq
        rw [← heq.2, htdFrac, hfl]
        dsimp only
        rw [hfinal false, hfraclen]
        have hsign : Packer.intOfSign false x.mantissa.natAbs = x.mantissa := by
          unfold Packer.intOfSign
          rw [if_neg (by simp)]
          omega
        rw [hsign]
      · rename_i h
        exact absurd rfl (h _)



theorem parseStrBody_plain (c : Char) (h1 : c ≠ '"') (h2 : c ≠ '\\')
    (h3 : 32 ≤ c.toNat) (X : List Char) :
    Packer.parseStrBody (c :: X)
      = (Packer.parseStrBody X).map (fun p => (c :: p.1, p.2)) := by
  rw [Packer.parseStrBody.eq_def]
  split
  · rename_i heq
    cases heq
  · rename_i heq
    rw [List.cons.injEq] at heq
    exact absurd heq.1 h1
  · rename_i heq
    rw [List.cons.injEq] at heq
    exact absurd heq.1 h2
  · rename_i heq
    rw [List.cons.injEq] at heq
    exact absurd heq.1 h2
  · rename_i heq
    rw [List.cons.injEq] at heq
    rw [← heq.1, ← heq.2]
    rw [if_neg (by omega)]

theorem parseStrBody_escChars : ∀ (cs rest : List Char),
    Packer.parseStrBody (Packer.escChars cs ++ ('"' :: rest)) = some (cs, rest) := by
  intro cs
  induction cs with
  | nil =>
    intro rest
    rfl
  | cons c cs ih =>
    intro rest
    rw [show Packer.escChars (c :: cs) = Packer.escapeChar c ++ Packer.escChars cs from rfl,
      List.append_assoc]
    by_cases h1 : c = '"'
    · subst h1
      rw [show Packer.escapeChar '"' = ['\\', '"'] from rfl]
      simp only [List.cons_append, List.nil_append]
      rw [show Packer.parseStrBody
            ('\\' :: '"' :: (Packer.escChars cs ++ ('"' :: rest)))
          = (Packer.parseStrBody (Packer.escChars cs ++ ('"' :: rest))).map
            (fun p => ('"' :: p.1, p.2)) from rfl]
      rw [ih]
      rfl
    · by_cases h2 : c = '\\'
      · subst h2
        rw [show Packer.escapeChar '\\' = ['\\', '\\'] from rfl]
        simp only [List.cons_append, List.nil_append]
        rw [show Packer.parseStrBody
              ('\\' :: '\\' :: (Packer.escChars cs ++ ('"' :: rest)))
            = (Packer.parseStrBody (Packer.escChars cs ++ ('"' :: rest))).map
              (fun p => ('\\' :: p.1, p.2)) from rfl]
        rw [ih]
        rfl
      · by_cases h3 : c.toNat = 8
        · rw [show Packer.escapeChar c = ['\\', 'b'] from by
            simp [Packer.escapeChar, h1, h2, h3]]
          simp only [List.cons_append, List.nil_append]
          rw [show Packer.parseStrBody
                ('\\' :: 'b' :: (Packer.escChars cs ++ ('"' :: rest)))
              = (Packer.parseStrBody (Packer.escChars cs ++ ('"' :: rest))).map
                (fun p => (Char.ofNat 8 :: p.1, p.2)) from rfl]
          rw [ih, show Char.ofNat 8 = c from by rw [← h3, Char.ofNat_toNat]]
          rfl
        · by_cases h4 : c.toNat = 9
          · rw [show Packer.escapeChar c = ['\\', 't'] from by
              simp [Packer.escapeChar, h1, h2, h3, h4]]
            simp only [List.cons_append, List.nil_append]
            rw [show Packer.parseStrBody
                  ('\\' :: 't' :: (Packer.escChars cs ++ ('"' :: rest)))
                = (Packer.parseStrBody (Packer.escChars cs ++ ('"' :: rest))).map
                  (fun p => (Char.ofNat 9 :: p.1, p.2)) from rfl]
            rw [ih, show Char.ofNat 9 = c from by rw [← h4, Char.ofNat_toNat]]
            rfl
          · by_cases h5 : c.toNat = 10
            · rw [show Packer.escapeChar c = ['\\', 'n'] from by
                simp [Packer.escapeChar, h1, h2, h3, h4, h5]]
              simp only [List.cons_append, List.nil_append]
              rw [show Packer.parseStrBody
                    ('\\' :: 'n' :: (Packer.escChars cs ++ ('"' :: rest)))
                  = (Packer.parseStrBody (Packer.escChars cs ++ ('"' :: rest))).map
                    (fun p => (Char.ofNat 10 :: p.1, p.2)) from rfl]
              rw [ih, show Char.ofNat 10 = c from by rw [← h5, Char.ofNat_toNat]]
              rfl
            · by_cases h6 : c.toNat = 12
              · rw [show Packer.escapeChar c = ['\\', 'f'] from by
                  simp [Packer.escapeChar, h1, h2, h3, h4, h5, h6]]
                simp only [List.cons_append, List.nil_append]
                rw [show Packer.parseStrBody
                      ('\\' :: 'f' :: (Packer.escChars cs ++ ('"' :: rest)))
                    = (Packer.parseStrBody (Packer.escChars cs ++ ('"' :: rest))).map
                      (fun p => (Char.ofNat 12 :: p.1, p.2)) from rfl]
                rw [ih, show Char.ofNat 12 = c from by rw [← h6, Char.ofNat_toNat]]
                rfl
              · by_cases h7 : c.toNat = 13
                · rw [show Packer.escapeChar c = ['\\', 'r'] from by
                    simp [Packer.escapeChar, h1, h2, h3, h4, h5, h6, h7]]
                  simp only [List.cons_append, List.nil_append]
                  rw [show Packer.parseStrBody
                        ('\\' :: 'r' :: (Packer.escChars cs ++ ('"' :: rest)))
                      = (Packer.parseStrBody (Packer.escChars cs ++ ('"' :: rest))).map
                        (fun p => (Char.ofNat 13 :: p.1, p.2)) from rfl]
                  rw [ih, show Char.ofNat 13 = c from by rw [← h7, Char.ofNat_toNat]]
                  rfl
                · by_cases h8 : c.toNat < 32
                  · rw [show Packer.escapeChar c
                        = ['\\', 'u', Packer.digitChar 0, Packer.digitChar 0,
                           (if c.toNat / 16 < 10 then Packer.digitChar (c.toNat / 16)
                            else Char.ofNat (87 + c.toNat / 16)),
                           (if c.toNat % 16 < 10 then Packer.digitChar (c.toNat % 16)
                            else Char.ofNat (87 + c.toNat % 16))] from by
                      simp [Packer.escapeChar, h1, h2, h3, h4, h5, h6, h7, h8]]
                    simp only [List.cons_append, List.nil_append]
                    rw [show Packer.parseStrBody
                          ('\\' :: 'u' :: Packer.digitChar 0 :: Packer.digitChar 0 ::
                            (if c.toNat / 16 < 10 then Packer.digitChar (c.toNat / 16)
                             else Char.ofNat (87 + c.toNat / 16)) ::
                            (if c.toNat % 16 < 10 then Packer.digitChar (c.toNat % 16)
                             else Char.ofNat (87 + c.toNat % 16)) ::
                            (Packer.escChars cs ++ ('"' :: rest)))
                        = (match Packer.parseHexDigit (Packer.digitChar 0),
                                 Packer.parseHexDigit (Packer.digitChar 0),
                                 Packer.parseHexDigit
                                   (if c.toNat / 16 < 10 then Packer.digitChar (c.toNat / 16)
                                    else Char.ofNat (87 + c.toNat / 16)),
                                 Packer.parseHexDigit
                                   (if c.toNat % 16 < 10 then Packer.digitChar (c.toNat % 16)
                                    else Char.ofNat (87 + c.toNat % 16)) with
                           | some a, some b, some g, some d =>
                             (Packer.parseStrBody (Packer.escChars cs ++ ('"' :: rest))).map
                               (fun p =>
                                 (Char.ofNat (((a * 16 + b) * 16 + g) * 16 + d) :: p.1, p.2))
                           | _, _, _, _ => none) from rfl]
                    have hq : Packer.parseHexDigit
                        (if c.toNat / 16 < 10 then Packer.digitChar (c.toNat / 16)
                         else Char.ofNat (87 + c.toNat / 16)) = some (c.toNat / 16) := by
                      rw [if_pos (by omega)]
                      exact parseHexDigit_digitChar _ (by omega)
                    have hr : Packer.parseHexDigit
                        (if c.toNat % 16 < 10 then Packer.digitChar (c.toNat % 16)
                         else Char.ofNat (87 + c.toNat % 16)) = some (c.toNat % 16) := by
                      by_cases hlo : c.toNat % 16 < 10
                      · rw [if_pos hlo]
                        exact parseHexDigit_digitChar _ hlo
                      · rw [if_neg hlo]
                        exact parseHexDigit_letter _ (by omega) (by omega)
                    rw [parseHexDigit_digitChar 0 (by norm_num), hq, hr]
                    dsimp only
                    rw [ih]
                    rw [show ((0 * 16 + 0) * 16 + c.toNat / 16) * 16 + c.toNat % 16
                        = c.toNat from by omega]
                    rw [Char.ofNat_toNat]
                    rfl
                  · rw [show Packer.escapeChar c = [c] from by
                      simp [Packer.escapeChar, h1, h2, h3, h4, h5, h6, h7, h8]]
                    rw [List.singleton_append]
                    rw [parseStrBody_plain c h1 h2 (by omega), ih]
                    rfl

theorem skipWs_cons (c : Char) (r : List Char) (h : Packer.isJsonWs c = false) :
    Packer.skipWs (c :: r) = c :: r := by
  simp [Packer.skipWs, h]

theorem string_mk_data (s : String) : String.mk s.data = s := rfl

theorem sizeV_pos (v : Json) : 1 ≤ Packer.sizeV v := by
  cases v <;> simp [Packer.sizeV]

theorem numChars_head (x : JsonNumber) :
    ∃ c cs, Packer.numChars x = c :: cs
      ∧ (c = '-' ∨ ∃ d, d < 10 ∧ c = Packer.digitChar d) := by
  have hnat : ∀ n : Nat, ∃ d tl, d < 10 ∧ Packer.natChars n = Packer.digitChar d :: tl := by
    intro n
    rw [natChars_map]
    obtain ⟨d0, dtl, hdl⟩ := List.exists_cons_of_ne_nil (natList_ne_nil n)
    refine ⟨d0, dtl.map Packer.digitChar, natList_lt n d0 (by rw [hdl]; simp), ?_⟩
    rw [hdl, List.map_cons]
  by_cases hm : x.mantissa < 0
  · by_cases he : x.exponent = 0
    · have h1 : Packer.numChars x = '-' :: Packer.natChars x.mantissa.natAbs := by
        simp [Packer.numChars, hm, he]
      exact ⟨'-', _, h1, Or.inl rfl⟩
    · have h1 : Packer.numChars x = '-' ::
          (Packer.natChars (x.mantissa.natAbs / 10 ^ x.exponent)
            ++ (Char.ofNat 46 :: (List.replicate
                  (x.exponent - (((Packer.natDigitsLE (x.mantissa.natAbs % 10 ^ x.exponent)).reverse).map Packer.digitChar).length)
                  (Packer.digitChar 0)
              ++ ((Packer.natDigitsLE (x.mantissa.natAbs % 10 ^ x.exponent)).reverse).map Packer.digitChar))) := by
        simp [Packer.numChars, hm, he]
      exact ⟨'-', _, h1, Or.inl rfl⟩
  · by_cases he : x.exponent = 0
    · obtain ⟨d, tl, hd, hn⟩ := hnat x.mantissa.natAbs
      have h1 : Packer.numChars x = Packer.digitChar d :: tl := by
        simp [Packer.numChars, hm, he, hn]
      exact ⟨Packer.digitChar d, tl, h1, Or.inr ⟨d, hd, rfl⟩⟩
    · obtain ⟨d, tl, hd, hn⟩ := hnat (x.mantissa.natAbs / 10 ^ x.exponent)
      have h1 : Packer.numChars x = Packer.digitChar d ::
          (tl ++ (Char.ofNat 46 :: (List.replicate
                  (x.exponent - (((Packer.natDigitsLE (x.mantissa.natAbs % 10 ^ x.exponent)).reverse).map Packer.digitChar).length)
                  (Packer.digitChar 0)
              ++ ((Packer.natDigitsLE (x.mantissa.natAbs % 10 ^ x.exponent)).reverse).map Packer.digitChar))) := by
        simp [Packer.numChars, hm, he, hn]
      exact ⟨Packer.digitChar d, _, h1, Or.inr ⟨d, hd, rfl⟩⟩

theorem stringify_head (v : Json) :
    ∃ c cs, Packer.stringifyV v = c :: cs
      ∧ Packer.isJsonWs c = false ∧ c ≠ ']' ∧ c ≠ '}' := by
  cases v with
  | null => exact ⟨'n', _, rfl, by decide, by decide, by decide⟩
  | bool b =>
    cases b
    · exact ⟨'f', _, rfl, by decide, by decide, by decide⟩
    · exact ⟨'t', _, rfl, by decide, by decide, by decide⟩
  | num n =>
    obtain ⟨c, cs, hc, hd⟩ := numChars_head n
    refine ⟨c, cs, hc, ?_, ?_, ?_⟩ <;>
      (rcases hd with rfl | ⟨d, hd10, rfl⟩
       · decide
       · first
         | exact (digitChar_facts d hd10).2.2.1
         | exact (digitChar_facts d hd10).2.2.2.2.2.2.2.2.2.2.2.1
         | exact (digitChar_facts d hd10).2.2.2.2.2.2.2.2.2.2.2.2)
  | str s => exact ⟨'"', _, rfl, by decide, by decide, by decide⟩
  | arr l =>
    cases l with
    | nil => exact ⟨'[', _, rfl, by decide, by decide, by decide⟩
    | cons x xs => exact ⟨'[', _, rfl, by decide, by decide, by decide⟩
  | obj l =>
    cases l with
    | nil => exact ⟨'{', _, rfl, by decide, by decide, by decide⟩
    | cons f fs => exact ⟨'{', _, rfl, by decide, by decide, by decide⟩

theorem boundary_elems (xs : List Json) (rest : List Char) :
    Packer.numBoundary (Packer.stringifyElems xs ++ (']' :: rest)) = true := by
  cases xs <;> rfl

theorem boundary_fields (fs : List (String × Json)) (rest : List Char) :
    Packer.numBoundary (Packer.stringifyFields fs ++ ('}' :: rest)) = true := by
  cases fs <;> rfl

theorem parseValue_str_branch (k : Nat) (r : List Char) :
    Packer.parseValue (k + 1) ('"' :: r)
      = (Packer.parseStrBody r).map (fun p => (Json.str (String.mk p.1), p.2)) := rfl

theorem parseValue_arr_cons (k : Nat) (c : Char) (l : List Char)
    (hw : Packer.isJsonWs c = false) (hc : c ≠ ']') :
    Packer.parseValue (k + 1) ('[' :: (c :: l))
      = (Packer.parseElems k (c :: l)).map (fun p => (Json.arr p.1, p.2)) := by
  rw [show Packer.parseValue (k + 1) ('[' :: (c :: l))
        = (match Packer.skipWs (c :: l) with
           | ']' :: r2 => some (Json.arr [], r2)
           | s2 => (Packer.parseElems k s2).map (fun p => (Json.arr p.1, p.2))) from rfl]
  rw [skipWs_cons c l hw]
  split
  · rename_i r2 heq
    rw [List.cons.injEq] at heq
    exact absurd heq.1 hc
  · rfl

theorem parseValue_obj_cons (k : Nat) (c : Char) (l : List Char)
    (hw : Packer.isJsonWs c = false) (hc : c ≠ '}') :
    Packer.parseValue (k + 1) ('{' :: (c :: l))
      = (Packer.parseFields k (c :: l)).map (fun p => (Json.obj p.1, p.2)) := by
  rw [show Packer.parseValue (k + 1) ('{' :: (c :: l))
        = (match Packer.skipWs (c :: l) with
           | '}' :: r2 => some (Json.obj [], r2)
           | s2 => (Packer.parseFields k s2).map (fun p => (Json.obj p.1, p.2))) from rfl]
  rw [skipWs_cons c l hw]
  split
  · rename_i r2 heq
    rw [List.cons.injEq] at heq
    exact absurd heq.1 hc
  · rfl

theorem parseValue_num_cons (k : Nat) (c : Char) (l : List Char)
    (hw : Packer.isJsonWs c = false)
    (h1 : c ≠ 'n') (h2 : c ≠ 't') (h3 : c ≠ 'f') (h4 : c ≠ '"') (h5 : c ≠ '[')
    (h6 : c ≠ '{') :
    Packer.parseValue (k + 1) (c :: l)
      = (Packer.parseNum (c :: l)).map (fun p => (Json.num p.1, p.2)) := by
  rw [Packer.parseValue.eq_def]
  dsimp only
  rw [skipWs_cons c l hw]
  dsimp only
  rw [if_neg h1, if_neg h2, if_neg h3, if_neg h4, if_neg h5, if_neg h6]

theorem parseElems_succ (k : Nat) (s : List Char) :
    Packer.parseElems (k + 1) s
      = (match Packer.parseValue k s with
         | none => none
         | some (v, r) =>
           match Packer.skipWs r with
           | ',' :: r2 => (Packer.parseElems k r2).map (fun p => (v :: p.1, p.2))
           | ']' :: r2 => some ([v], r2)
           | _ => none) := rfl

theorem parseFields_succ (k : Nat) (s : List Char) :
    Packer.parseFields (k + 1) s
      = (match Packer.skipWs s with
         | '"' :: r =>
           (match Packer.parseStrBody r with
            | none => none
            | some (key, r2) =>
              match Packer.skipWs r2 with
              | ':' :: r3 =>
                (match Packer.parseValue k r3 with
                 | none => none
                 | some (v, r4) =>
                   match Packer.skipWs r4 with
                   | ',' :: r5 => (Packer.parseFields k r5).map (fun p => ((String.mk key, v) :: p.1, p.2))
                   | '}' :: r5 => some ([(String.mk key, v)], r5)
                   | _ => none)
              | _ => none)
         | _ => none) := rfl

theorem parse_stringify_all : ∀ n : Nat,
    (∀ (v : Json) (fuel : Nat) (rest : List Char),
        Packer.sizeV v ≤ n → Packer.sizeV v ≤ fuel → Packer.numBoundary rest = true →
        Packer.parseValue fuel (Packer.stringifyV v ++ rest) = some (v, rest)) ∧
    (∀ (x : Json) (xs : List Json) (fuel : Nat) (rest : List Char),
        Packer.sizeL (x :: xs) ≤ n → Packer.sizeL (x :: xs) ≤ fuel →
        Packer.parseElems fuel
            (Packer.stringifyV x ++ (Packer.stringifyElems xs ++ (']' :: rest)))
          = some (x :: xs, rest)) ∧
    (∀ (f : String × Json) (fs : List (String × Json)) (fuel : Nat) (rest : List Char),
        Packer.sizeF (f :: fs) ≤ n → Packer.sizeF (f :: fs) ≤ fuel →
        Packer.parseFields fuel
            (Packer.strChars f.1 ++ (':' :: (Packer.stringifyV f.2
              ++ (Packer.stringifyFields fs ++ ('}' :: rest)))))
          = some (f :: fs, rest)) := by
  intro n
  induction n using Nat.strong_induction_on with
  | _ n ih =>
    refine ⟨?_, ?_, ?_⟩
    · intro v fuel rest hn hf hb
      have hvp := sizeV_pos v
      have hlt : n - 1 < n := by omega
      cases fuel with
      | zero => omega
      | succ k =>
        cases v with
        | null => rfl
        | bool b => cases b <;> rfl
        | num x =>
          obtain ⟨c, cs, hc, hd⟩ := numChars_head x
          rw [show Packer.stringifyV (Json.num x) = Packer.numChars x from rfl, hc,
            List.cons_append]
          rcases hd with rfl | ⟨d, hd10, rfl⟩
          · rw [parseValue_num_cons k '-' (cs ++ rest) (by decide) (by decide) (by decide)
              (by decide) (by decide) (by decide) (by decide)]
            rw [← List.cons_append, ← hc, parseNum_numChars x rest hb]
            rfl
          · have hfa := digitChar_facts d hd10
            rw [parseValue_num_cons k (Packer.digitChar d) (cs ++ rest) hfa.2.2.1
              hfa.2.2.2.1 hfa.2.2.2.2.1 hfa.2.2.2.2.2.1 hfa.2.2.2.2.2.2.1
              hfa.2.2.2.2.2.2.2.1 hfa.2.2.2.2.2.2.2.2.1]
            rw [← List.cons_append, ← hc, parseNum_numChars x rest hb]
            rfl
        | str s =>
          have hsh : Packer.strChars s ++ rest
              = '"' :: (Packer.escChars s.data ++ ('"' :: rest)) := by
            simp [Packer.strChars]
          rw [show Packer.stringifyV (Json.str s) = Packer.strChars s from rfl, hsh,
            parseValue_str_branch, parseStrBody_escChars]
          rfl
        | arr l =>
          cases l with
          | nil => rfl
          | cons x xs =>
            obtain ⟨c, cs, hc, hcw, hcb, _⟩ := stringify_head x
            have hsh : Packer.stringifyV (Json.arr (x :: xs)) ++ rest
                = '[' :: (Packer.stringifyV x
                    ++ (Packer.stringifyElems xs ++ (']' :: rest))) := by
              rw [show Packer.stringifyV (Json.arr (x :: xs))
                    = '[' :: ((Packer.stringifyV x ++ Packer.stringifyElems xs) ++ [']'])
                  from rfl]
              simp
            rw [hsh, hc, List.cons_append]
            rw [parseValue_arr_cons k c (cs ++ (Packer.stringifyElems xs ++ (']' :: rest)))
              hcw hcb]
            rw [← List.cons_append, ← hc]
            have hsz : Packer.sizeV (Json.arr (x :: xs)) = 1 + Packer.sizeL (x :: xs) := rfl
            rw [(ih (n - 1) hlt).2.1 x xs k rest (by omega) (by omega)]
            rfl
        | obj l =>
          cases l with
          | nil => rfl
          | cons f fs =>
            have hsh : Packer.stringifyV (Json.obj (f :: fs)) ++ rest
                = '{' :: ('"' :: (Packer.escChars f.1.data
                    ++ ('"' :: (':' :: (Packer.stringifyV f.2
                      ++ (Packer.stringifyFields fs ++ ('}' :: rest))))))) := by
              rw [show Packer.stringifyV (Json.obj (f :: fs))
                    = '{' :: ((Packer.strChars f.1 ++ (':' :: Packer.stringifyV f.2)
                        ++ Packer.stringifyFields fs) ++ ['}']) from rfl]
              simp [Packer.strChars]
            rw [hsh]
            rw [parseValue_obj_cons k '"' (Packer.escChars f.1.data
                ++ ('"' :: (':' :: (Packer.stringifyV f.2
                  ++ (Packer.stringifyFields fs ++ ('}' :: rest))))))
              (by decide) (by decide)]
            have hback : ('"' :: (Packer.escChars f.1.data
                ++ ('"' :: (':' :: (Packer.stringifyV f.2
                  ++ (Packer.stringifyFields fs ++ ('}' :: rest)))))) : List Char)
                = Packer.strChars f.1 ++ (':' :: (Packer.stringifyV f.2
                    ++ (Packer.stringifyFields fs ++ ('}' :: rest)))) := by
              simp [Packer.strChars]
            rw [hback]
            have hsz : Packer.sizeV (Json.obj (f :: fs)) = 1 + Packer.sizeF (f :: fs) := rfl
            rw [(ih (n - 1) hlt).2.2 f fs k rest (by omega) (by omega)]
            rfl
    · intro x xs fuel rest hn hf
      have hvp := sizeV_pos x
      have hsz : Packer.sizeL (x :: xs) = 1 + Packer.sizeV x + Packer.sizeL xs := rfl
      have hlt : n - 1 < n := by omega
      cases fuel with
      | zero => omega
      | succ k =>
        rw [parseElems_succ]
        rw [(ih (n - 1) hlt).1 x k (Packer.stringifyElems xs ++ (']' :: rest))
          (by omega) (by omega) (boundary_elems xs rest)]
        dsimp only
        cases xs with
        | nil =>
          rw [show Packer.stringifyElems ([] : List Json) = [] from rfl, List.nil_append]
          rw [skipWs_cons ']' rest (by decide)]
          rfl
        | cons y ys =>
          rw [show Packer.stringifyElems (y :: ys)
                = ',' :: (Packer.stringifyV y ++ Packer.stringifyElems ys) from rfl,
            List.cons_append, List.append_assoc]
          rw [skipWs_cons ',' (Packer.stringifyV y
            ++ (Packer.stringifyElems ys ++ (']' :: rest))) (by decide)]
          simp only []
          have hsz2 : Packer.sizeL (y :: ys) = 1 + Packer.sizeV y + Packer.sizeL ys := rfl
          rw [(ih (n - 1) hlt).2.1 y ys k rest (by omega) (by omega)]
          rfl
    · intro f fs fuel rest hn hf
      have hvp := sizeV_pos f.2
      have hsz : Packer.sizeF (f :: fs) = 1 + Packer.sizeV f.2 + Packer.sizeF fs := rfl
      have hlt : n - 1 < n := by omega
      cases fuel with
      | zero => omega
      | succ k =>
        rw [parseFields_succ]
        have hsh : Packer.strChars f.1 ++ (':' :: (Packer.stringifyV f.2
              ++ (Packer.stringifyFields fs ++ ('}' :: rest))))
            = '"' :: (Packer.escChars f.1.data ++ ('"' :: (':' :: (Packer.stringifyV f.2
              ++ (Packer.stringifyFields fs ++ ('}' :: rest)))))) := by
          simp [Packer.strChars]
        rw [hsh, skipWs_cons '"' (Packer.escChars f.1.data
          ++ ('"' :: (':' :: (Packer.stringifyV f.2
            ++ (Packer.stringifyFields fs ++ ('}' :: rest)))))) (by decide)]
        simp only []
        rw [parseStrBody_escChars f.1.data]
        dsimp only
        rw [skipWs_cons ':' (Packer.stringifyV f.2
          ++ (Packer.stringifyFields fs ++ ('}' :: rest))) (by decide)]
        simp only []
        rw [(ih (n - 1) hlt).1 f.2 k (Packer.stringifyFields fs ++ ('}' :: rest))
          (by omega) (by omega) (boundary_fields fs rest)]
        dsimp only
        cases fs with
        | nil =>
          rw [show Packer.stringifyFields ([] : List (String × Json)) = [] from rfl,
            List.nil_append, skipWs_cons '}' rest (by decide)]
          rfl
        | cons g gs =>
          rw [show Packer.stringifyFields (g :: gs)
                = ',' :: (Packer.strChars g.1 ++ (':' :: Packer.stringifyV g.2)
                    ++ Packer.stringifyFields gs) from rfl,
            List.cons_append]
          rw [skipWs_cons ',' ((Packer.strChars g.1 ++ (':' :: Packer.stringifyV g.2)
            ++ Packer.stringifyFields gs) ++ ('}' :: rest)) (by decide)]
          simp only []
          have hre : ((Packer.strChars g.1 ++ (':' :: Packer.stringifyV g.2)
                ++ Packer.stringifyFields gs) ++ ('}' :: rest) : List Char)
              = Packer.strChars g.1 ++ (':' :: (Packer.stringifyV g.2
                  ++ (Packer.stringifyFields gs ++ ('}' :: rest)))) := by
            simp
          rw [hre]
          rw [(ih (n - 1) hlt).2.2 g gs k rest (by omega) (by omega)]
          rfl

theorem stringify_length_all : ∀ n : Nat,
    (∀ v : Json, Packer.sizeV v ≤ n → Packer.sizeV v ≤ (Packer.stringifyV v).length) ∧
    (∀ xs : List Json, Packer.sizeL xs ≤ n →
        Packer.sizeL xs ≤ (Packer.stringifyElems xs).length) ∧
    (∀ fs : List (String × Json), Packer.sizeF fs ≤ n →
        Packer.sizeF fs ≤ (Packer.stringifyFields fs).length) := by
  intro n
  induction n using Nat.strong_induction_on with
  | _ n ih =>
    refine ⟨?_, ?_, ?_⟩
    · intro v hn
      cases v with
      | null => decide
      | bool b => cases b <;> decide
      | num x =>
        obtain ⟨c, cs, hc, _⟩ := numChars_head x
        rw [show Packer.sizeV (Json.num x) = 1 from rfl,
          show Packer.stringifyV (Json.num x) = Packer.numChars x from rfl, hc]
        simp
      | str s =>
        rw [show Packer.sizeV (Json.str s) = 1 from rfl,
          show Packer.stringifyV (Json.str s) = Packer.strChars s from rfl,
          show Packer.strChars s = '"' :: (Packer.escChars s.data ++ ['"']) from rfl]
        simp
      | arr l =>
        cases l with
        | nil => decide
        | cons x xs =>
          have hsz : Packer.sizeV (Json.arr (x :: xs)) = 1 + Packer.sizeL (x :: xs) := rfl
          have hxp := sizeV_pos x
          have hszL : Packer.sizeL (x :: xs) = 1 + Packer.sizeV x + Packer.sizeL xs := rfl
          have h1 : n - 1 < n := by omega
          have hIH := (ih (n - 1) h1).2.1 (x :: xs) (by omega)
          have hse : (Packer.stringifyElems (x :: xs)).length
              = 1 + ((Packer.stringifyV x).length + (Packer.stringifyElems xs).length) := by
            rw [show Packer.stringifyElems (x :: xs)
                  = ',' :: (Packer.stringifyV x ++ Packer.stringifyElems xs) from rfl]
            simp
            omega
          rw [hse] at hIH
          rw [hsz, show Packer.stringifyV (Json.arr (x :: xs))
                = '[' :: ((Packer.stringifyV x ++ Packer.stringifyElems xs) ++ [']'])
              from rfl]
          simp only [List.length_cons, List.length_append, List.length_nil]
          omega
      | obj l =>
        cases l with
        | nil => decide
        | cons f fs =>
          have hsz : Packer.sizeV (Json.obj (f :: fs)) = 1 + Packer.sizeF (f :: fs) := rfl
          have hxp := sizeV_pos f.2
          have hszF : Packer.sizeF (f :: fs) = 1 + Packer.sizeV f.2 + Packer.sizeF fs := rfl
          have h1 : n - 1 < n := by omega
          have hIH := (ih (n - 1) h1).2.2 (f :: fs) (by omega)
          have hsf : (Packer.stringifyFields (f :: fs)).length
              = 1 + ((Packer.strChars f.1).length + (1 + (Packer.stringifyV f.2).length)
                  + (Packer.stringifyFields fs).length) := by
            rw [show Packer.stringifyFields (f :: fs)
                  = ',' :: (Packer.strChars f.1 ++ (':' :: Packer.stringifyV f.2)
                      ++ Packer.stringifyFields fs) from rfl]
            simp
            omega
          rw [hsf] at hIH
          rw [hsz, show Packer.stringifyV (Json.obj (f :: fs))
                = '{' :: ((Packer.strChars f.1 ++ (':' :: Packer.stringifyV f.2)
                    ++ Packer.stringifyFields fs) ++ ['}']) from rfl]
          simp only [List.length_cons, List.length_append, List.length_nil]
          omega
    · intro xs hn
      cases xs with
      | nil => decide
      | cons x xs =>
        have hxp := sizeV_pos x
        have hszL : Packer.sizeL (x :: xs) = 1 + Packer.sizeV x + Packer.sizeL xs := rfl
        have h1 : n - 1 < n := by omega
        have hIHx := (ih (n - 1) h1).1 x (by omega)
        have hIHxs := (ih (n - 1) h1).2.1 xs (by omega)
        rw [hszL, show Packer.stringifyElems (x :: xs)
              = ',' :: (Packer.stringifyV x ++ Packer.stringifyElems xs) from rfl]
        simp only [List.length_cons, List.length_append]
        omega
    · intro fs hn
      cases fs with
      | nil => decide
      | cons f fs =>
        have hxp := sizeV_pos f.2
        have hszF : Packer.sizeF (f :: fs) = 1 + Packer.sizeV f.2 + Packer.sizeF fs := rfl
        have h1 : n - 1 < n := by omega
        have hIHx := (ih (n - 1) h1).1 f.2 (by omega)
        have hIHfs := (ih (n - 1) h1).2.2 fs (by omega)
        rw [hszF, show Packer.stringifyFields (f :: fs)
              = ',' :: (Packer.strChars f.1 ++ (':' :: Packer.stringifyV f.2)
                  ++ Packer.stringifyFields fs) from rfl]
        simp only [List.length_cons, List.length_append]
        omega

/-- C7: for every JSON-representable value v (nested objects, arrays, strings,
numbers, booleans, null), unpacking the packed wire envelope returns exactly
the original value: unpack (pack v) = some v. -/
theorem pack_unpack_roundtrip (v : Json) :
    Packer.unpack (Packer.pack v) = some v := by
  have hw : Packer.sizeV (Json.obj [(("value" : String), v)]) = 2 + Packer.sizeV v := by
    rw [show Packer.sizeV (Json.obj [(("value" : String), v)])
          = 1 + Packer.sizeF [(("value" : String), v)] from rfl,
      show Packer.sizeF [(("value" : String), v)]
          = 1 + Packer.sizeV v + Packer.sizeF [] from rfl,
      show Packer.sizeF ([] : List (String × Json)) = 0 from rfl]
    omega
  have hlen := (stringify_length_all
      (Packer.sizeV (Json.obj [(("value" : String), v)]))).1
      (Json.obj [(("value" : String), v)]) le_rfl
  have hfuel : Packer.sizeV (Json.obj [(("value" : String), v)])
      ≤ (Packer.pack v).length + 1 := by
    rw [show (Packer.pack v).length
          = (Packer.stringifyV (Json.obj [(("value" : String), v)])).length from rfl]
    omega
  have hv := (parse_stringify_all (Packer.sizeV (Json.obj [(("value" : String), v)]))).1
      (Json.obj [(("value" : String), v)]) ((Packer.pack v).length + 1) [] le_rfl hfuel rfl
  rw [List.append_nil] at hv
  have hdoc : Packer.parseDoc (Packer.pack v)
      = some (Json.obj [(("value" : String), v)]) := by
    rw [show Packer.parseDoc (Packer.pack v)
          = (match Packer.parseValue ((Packer.pack v).length + 1)
                (Packer.stringifyV (Json.obj [(("value" : String), v)])) with
             | some p => if Packer.skipWs p.2 = [] then some p.1 else none
             | none => none) from rfl]
    rw [hv]
    rfl
  simp only [Packer.unpack]
  rw [hdoc]
  rfl
